import Mathlib

/-!
Verification development for the FSM-simulation experiment repository.

The repository's core consists of:
* `FSM.py` — random FSM generation (`create_random_fsm`), stateless simulation
  (`simulate_sequence`), and prompt rendering (`get_prompt_formatted_fsm`,
  `_generate_example_flow`);
* `database_manager.py` — the SQLite-backed run store (`handle_sample_size_change`,
  `get_or_create_run_state`, `update_run_state`, `update_results`, `log_error`,
  `prepare_runs_for_extension`, `get_runs_to_process`);
* `experiment_runner.py` — the per-instance driver (`process_run`, `simulate_turn`).

Python's global pseudo-random generator is embedded as an explicit entropy
stream: a `List Nat` of raw draws, threaded through every function that the
source lets consume randomness.  `draw` pops one number off the stream (an
exhausted stream keeps yielding `0`, which is harmless because every theorem
below is quantified over all streams).  `random.choice`, `random.sample`,
`random.shuffle` and `random.randint` are implemented on top of `draw` with
their documented semantics (uniform selection becomes "the drawn number taken
modulo the number of alternatives"; sampling without replacement removes the
drawn element before the next draw).

The SQLite store is embedded as in-memory lists of rows; SQL `DELETE`/`INSERT`/
`SELECT ... WHERE` become `List.filter`/append/`List.find?` on those lists.
-/

/-- One draw from the entropy stream: pops the head (0 when exhausted). -/
def draw : List Nat → Nat × List Nat
  | [] => (0, [])
  | n :: e => (n, e)

/-- Remove the element at an index (the removal step of `random.sample`). -/
def removeIdx : List α → Nat → List α
  | [], _ => []
  | _ :: xs, 0 => xs
  | x :: xs, n + 1 => x :: removeIdx xs n

/-- `random.choice(l)`: uniform pick, here the drawn number modulo the length.
`none` models Python raising `IndexError` on an empty sequence. -/
def pyChoice (l : List α) (e : List Nat) : Option α × List Nat :=
  match l with
  | [] => (none, (draw e).2)
  | a :: _ => (some (l.getD ((draw e).1 % l.length) a), (draw e).2)

/-- `random.sample(l, k)`: `k` draws without replacement.  Callers in the
source always satisfy `k ≤ l.length`; beyond that the function degrades
gracefully (Python would raise). -/
def pySample : List α → Nat → List Nat → List α × List Nat
  | _, 0, e => ([], e)
  | l, k + 1, e =>
    match l with
    | [] => ([], (draw e).2)
    | a :: _ =>
      let i := (draw e).1 % l.length
      let rest := pySample (removeIdx l i) k (draw e).2
      (l.getD i a :: rest.1, rest.2)

/-- `random.randint(1, 2)` as used by `_generate_example_flow`. -/
def pyRandint1to2 (e : List Nat) : Nat × List Nat :=
  (1 + (draw e).1 % 2, (draw e).2)

theorem pySample_cons (a : α) (xs : List α) (k : Nat) (e : List Nat) :
    pySample (a :: xs) (k + 1) e =
      ((a :: xs).getD ((draw e).1 % (a :: xs).length) a ::
        (pySample (removeIdx (a :: xs) ((draw e).1 % (a :: xs).length)) k (draw e).2).1,
       (pySample (removeIdx (a :: xs) ((draw e).1 % (a :: xs).length)) k (draw e).2).2) :=
  rfl

theorem removeIdx_length {l : List α} {i : Nat} (h : i < l.length) :
    (removeIdx l i).length + 1 = l.length := by
  induction l generalizing i with
  | nil => simp at h
  | cons a xs ih =>
    cases i with
    | zero => simp [removeIdx]
    | succ n =>
      simp only [removeIdx, List.length_cons]
      have := ih (i := n) (by simpa using h)
      omega

theorem getD_cons_removeIdx_perm {l : List α} {i : Nat} (d : α) (h : i < l.length) :
    (l.getD i d :: removeIdx l i).Perm l := by
  induction l generalizing i with
  | nil => simp at h
  | cons a xs ih =>
    cases i with
    | zero => simp [removeIdx]
    | succ n =>
      have hn : n < xs.length := by simpa using h
      have h1 : ((a :: xs).getD (n + 1) d :: removeIdx (a :: xs) (n + 1)) =
          xs.getD n d :: a :: removeIdx xs n := by
        simp [removeIdx, List.getD]
      rw [h1]
      exact (List.Perm.swap _ _ _).trans (List.Perm.cons _ (ih hn))

theorem removeIdx_subset {l : List α} {i : Nat} : removeIdx l i ⊆ l := by
  induction l generalizing i with
  | nil => simp [removeIdx]
  | cons a xs ih =>
    cases i with
    | zero => intro x hx; exact List.mem_cons_of_mem _ hx
    | succ n =>
      intro x hx
      rcases List.mem_cons.mp hx with h | h
      · exact h ▸ List.mem_cons_self _ _
      · exact List.mem_cons_of_mem _ (ih h)

theorem getD_mem_of_lt {l : List α} {i : Nat} (d : α) (h : i < l.length) :
    l.getD i d ∈ l :=
  (getD_cons_removeIdx_perm d h).mem_iff.mp (List.mem_cons_self _ _)

/-- The core facts about `pySample`: the chosen elements come from the pool,
are distinct when the pool is, and there are exactly `k` of them when the pool
is large enough. -/
theorem pySample_spec (l : List α) (k : Nat) (e : List Nat) :
    (pySample l k e).1 ⊆ l ∧
    (l.Nodup → (pySample l k e).1.Nodup) ∧
    (k ≤ l.length → (pySample l k e).1.length = k) := by
  induction k generalizing l e with
  | zero => exact ⟨by simp [pySample], fun _ => by simp [pySample], fun _ => by simp [pySample]⟩
  | succ k ih =>
    cases l with
    | nil =>
      refine ⟨by simp [pySample], fun _ => by simp [pySample], fun h => by simp at h⟩
    | cons a xs =>
      have hlt : (draw e).1 % (a :: xs).length < (a :: xs).length :=
        Nat.mod_lt _ (by simp)
      rw [pySample_cons]
      obtain ⟨hsub, hnd, hlen⟩ :=
        ih (removeIdx (a :: xs) ((draw e).1 % (a :: xs).length)) (draw e).2
      have hperm := getD_cons_removeIdx_perm (l := a :: xs)
        (i := (draw e).1 % (a :: xs).length) a hlt
      have hrl : (removeIdx (a :: xs) ((draw e).1 % (a :: xs).length)).length + 1 =
          (a :: xs).length := removeIdx_length hlt
      refine ⟨?_, ?_, ?_⟩
      · intro y hy
        rcases List.mem_cons.mp hy with h | h
        · exact h ▸ hperm.subset (List.mem_cons_self _ _)
        · exact removeIdx_subset (hsub h)
      · intro hnodup
        have hnodup' := hperm.nodup_iff.mpr hnodup
        refine List.nodup_cons.mpr
          ⟨fun hmem => (List.nodup_cons.mp hnodup').1 (hsub hmem),
           hnd (List.nodup_cons.mp hnodup').2⟩
      · intro hk
        have hrl' : (removeIdx (a :: xs) ((draw e).1 % (a :: xs).length)).length + 1 =
            xs.length + 1 := by rw [hrl]; rfl
        have hk' : k + 1 ≤ xs.length + 1 := hk
        rw [List.length_cons, hlen (by omega)]

/-- Sampling the whole pool (`random.shuffle`) is a permutation of it. -/
theorem pySample_perm (l : List α) (e : List Nat) :
    (pySample l l.length e).1.Perm l := by
  suffices h : ∀ (k : Nat) (l : List α) (e : List Nat), k = l.length →
      (pySample l k e).1.Perm l from h _ l e rfl
  intro k
  induction k with
  | zero =>
    intro l e hk
    cases l with
    | nil => simp [pySample]
    | cons a xs => simp at hk
  | succ k ih =>
    intro l e hk
    cases l with
    | nil => simp at hk
    | cons a xs =>
      have hlt : (draw e).1 % (a :: xs).length < (a :: xs).length :=
        Nat.mod_lt _ (by simp)
      have hperm := getD_cons_removeIdx_perm (l := a :: xs)
        (i := (draw e).1 % (a :: xs).length) a hlt
      have hrl : (removeIdx (a :: xs) ((draw e).1 % (a :: xs).length)).length + 1 =
          (a :: xs).length := removeIdx_length hlt
      have hrl' : (removeIdx (a :: xs) ((draw e).1 % (a :: xs).length)).length + 1 =
          xs.length + 1 := by rw [hrl]; rfl
      have hk' : k = (removeIdx (a :: xs) ((draw e).1 % (a :: xs).length)).length := by
        have hk2 : k + 1 = xs.length + 1 := hk
        omega
      rw [pySample_cons]
      exact ((ih _ (draw e).2 hk').cons _).trans hperm

theorem pyChoice_ne_nil {l : List α} (h : l ≠ []) (e : List Nat) :
    ∃ x, pyChoice l e = (some x, (draw e).2) ∧ x ∈ l := by
  cases l with
  | nil => exact absurd rfl h
  | cons a xs =>
    refine ⟨(a :: xs).getD ((draw e).1 % (a :: xs).length) a, rfl, ?_⟩
    exact getD_mem_of_lt a (Nat.mod_lt _ (by simp))

/-! ## FSM.py — data model and generator -/

/-- `FSMManager._state_word_list` (61 names). -/
def state_word_list : List String :=
  ["ant", "ape", "bat", "bee", "camel", "cat", "cobra", "crow",
   "deer", "dog", "duck", "frog", "hamster", "horse", "lion", "monkey",
   "rabbit", "apple", "water", "ice", "fire", "desk", "table", "pen",
   "paper", "iron", "book", "class", "room", "day", "worker", "year",
   "life", "child", "family", "home", "mother", "story", "eye", "game",
   "face", "war", "health", "girl", "man", "level", "city", "wife",
   "king", "hair", "hall", "hotel", "park", "blood", "sound", "glass",
   "earth", "task", "radio", "peace", "image"]

/-- `FSMManager._action_word_list` (52 names). -/
def action_word_list : List String :=
  ["blue", "red", "green", "yellow", "brown", "black", "white", "good",
   "bad", "new", "old", "small", "large", "short", "long", "hard",
   "easy", "open", "clear", "hot", "cold", "dark", "light", "weak",
   "strong", "sad", "happy", "dry", "full", "empty", "fast", "slow",
   "safe", "danger", "winter", "fall", "spring", "summer", "rich", "deep",
   "fat", "thin", "ill", "smart", "fun", "far", "live", "medium",
   "north", "south", "west", "east"]

/-- The FSM Model.  Python's `states`/`actions` sets become lists (in sampling
order — CPython set iteration order is unspecified, and nothing proved below
depends on it); the dict-of-dicts `transitions` becomes the flat list of
`(from_state, action, to_state)` triples in insertion order, which carries the
same information because the generator never assigns the same
`(from_state, action)` slot twice (proved in `create_random_fsm_ok`).
`initial_state = none` models Python `None`. -/
structure FSM where
  states : List String
  actions : List String
  transitions : List (String × String × String)
  initial_state : Option String
deriving DecidableEq, Inhabited

/-- Outcome of `FSMManager.create_random_fsm`.  The two error constructors are
the printed-error-then-`initial_state = None` early returns; `crash` models an
uncaught Python exception (`random.choice` on an empty list). -/
inductive GenResult where
  | capacityError : GenResult
  | rangeError : GenResult
  | crash : GenResult
  | ok : FSM → GenResult
deriving DecidableEq, Inhabited

/-- `self.transitions[from_state][action]` as a partial lookup on the flat
transition list (the generator keeps `(from_state, action)` keys distinct, so
the first match is the dict entry). -/
def lookupTrans (trans : List (String × String × String)) (s a : String) : Option String :=
  (trans.find? (fun t => t.1 == s && t.2.1 == a)).map (fun t => t.2.2)

/-- `list(self.transitions[s].keys())`: the available actions out of `s`, in
insertion order (the inner-dict insertion order is exactly the order of the
flat list filtered on `s`). -/
def outgoingActions (trans : List (String × String × String)) (s : String) : List String :=
  (trans.filter (fun t => t.1 == s)).map (fun t => t.2.1)

/-- Stage 1 of `create_random_fsm`: one transition per state, visiting the
shuffled states.  Returns the created triples and the remaining slot pool, or
`none` if `random.choice` hits an empty candidate list (an `IndexError` in
Python — proved unreachable under the validated preconditions). -/
def stage1 (state_list action_list : List String) :
    List String → List (String × String) → List Nat →
    Option (List (String × String × String) × List (String × String)) × List Nat
  | [], slots, ent => (some ([], slots), ent)
  | fs :: rest, slots, ent =>
    let possible := action_list.filter (fun a => slots.contains (fs, a))
    match (pyChoice possible ent).1 with
    | none => (none, (pyChoice possible ent).2)
    | some a =>
      let e1 := (pyChoice possible ent).2
      match (pyChoice state_list e1).1 with
      | none => (none, (pyChoice state_list e1).2)
      | some t =>
        let e2 := (pyChoice state_list e1).2
        match (stage1 state_list action_list rest (slots.erase (fs, a)) e2).1 with
        | none => (none, (stage1 state_list action_list rest (slots.erase (fs, a)) e2).2)
        | some (ts, slots2) =>
          (some ((fs, a, t) :: ts, slots2),
           (stage1 state_list action_list rest (slots.erase (fs, a)) e2).2)

/-- Stage 2, destination assignment: `to_state = random.choice(state_list)`
for each sampled `(from_state, action)` slot. -/
def assignDests (state_list : List String) :
    List (String × String) → List Nat →
    Option (List (String × String × String)) × List Nat
  | [], ent => (some [], ent)
  | (fs, a) :: rest, ent =>
    match (pyChoice state_list ent).1 with
    | none => (none, (pyChoice state_list ent).2)
    | some t =>
      let e1 := (pyChoice state_list ent).2
      match (assignDests state_list rest e1).1 with
      | none => (none, (assignDests state_list rest e1).2)
      | some ts => (some ((fs, a, t) :: ts), (assignDests state_list rest e1).2)

/-- Steps 5 and 6 of `create_random_fsm` (stage 1, stage 2, and the final
choice of `initial_state`), factored out of the validated main path purely for
proof structure: `create_random_fsm` below calls this with the freshly sampled
name lists, the full slot pool, and the shuffled visiting order, exactly as the
source runs these steps inline. -/
def buildFsm (sts acts shuffled : List String) (slots : List (String × String))
    (remaining : Nat) (e3 : List Nat) : GenResult :=
  match (stage1 sts acts shuffled slots e3).1 with
  | none => .crash
  | some (ts1, slots1) =>
    let e4 := (stage1 sts acts shuffled slots e3).2
    let res2 :=
      if 0 < remaining then
        assignDests sts (pySample slots1 remaining e4).1 (pySample slots1 remaining e4).2
      else (some [], e4)
    match res2.1 with
    | none => .crash
    | some ts2 =>
      match (pyChoice sts res2.2).1 with
      | none => .crash
      | some init => .ok ⟨sts, acts, ts1 ++ ts2, some init⟩

/-- `FSMManager.create_random_fsm(num_states, num_actions, num_transitions)`.

Follows the source step by step: the two capacity checks, the range check
(each returning with `initial_state = None`), sampling the state and action
names, building the full `(state, action)` slot pool, shuffling the states,
stage 1 (one outgoing transition per state), stage 2 (the remaining
`num_transitions - num_states` slots, sampled without replacement), and the
final uniformly random `initial_state`. -/
def create_random_fsm (num_states num_actions num_transitions : Nat)
    (ent : List Nat) : GenResult :=
  if state_word_list.length < num_states then .capacityError
  else if action_word_list.length < num_actions then .capacityError
  else if ¬ (num_states ≤ num_transitions ∧
             num_transitions ≤ num_states * num_actions) then .rangeError
  else
    let sts := (pySample state_word_list num_states ent).1
    let e1 := (pySample state_word_list num_states ent).2
    let acts := (pySample action_word_list num_actions e1).1
    let e2 := (pySample action_word_list num_actions e1).2
    let slots := sts.flatMap (fun s => acts.map (fun a => (s, a)))
    let shuffled := (pySample sts sts.length e2).1
    let e3 := (pySample sts sts.length e2).2
    buildFsm sts acts shuffled slots (num_transitions - num_states) e3

theorem stage1_cons_eq (sl al : List String) (fs : String) (rest : List String)
    (slots : List (String × String)) (ent : List Nat) (a t : String)
    (ts : List (String × String × String)) (slots2 : List (String × String))
    (h1 : (pyChoice (al.filter (fun a => slots.contains (fs, a))) ent).1 = some a)
    (h2 : (pyChoice sl
        (pyChoice (al.filter (fun a => slots.contains (fs, a))) ent).2).1 = some t)
    (h3 : (stage1 sl al rest (slots.erase (fs, a))
        (pyChoice sl
          (pyChoice (al.filter (fun a => slots.contains (fs, a))) ent).2).2).1 =
      some (ts, slots2)) :
    (stage1 sl al (fs :: rest) slots ent).1 = some ((fs, a, t) :: ts, slots2) := by
  simp only [stage1]
  rw [h1]
  simp only []
  rw [h2]
  simp only []
  rw [h3]

/-- Stage 1 always succeeds under the validated preconditions and establishes:
one transition per visited state (in visiting order), destinations drawn from
the state list, keys drawn from (and then removed from) the slot pool. -/
theorem stage1_spec (state_list action_list : List String) (hsl : state_list ≠ []) :
    ∀ (toVisit : List String) (slots : List (String × String)) (ent : List Nat),
      toVisit.Nodup → slots.Nodup →
      (∀ s ∈ toVisit, ∃ a ∈ action_list, (s, a) ∈ slots) →
      ∃ ts slots2,
        (stage1 state_list action_list toVisit slots ent).1 = some (ts, slots2) ∧
        ts.map (fun t => t.1) = toVisit ∧
        (∀ t ∈ ts, t.2.2 ∈ state_list) ∧
        (∀ t ∈ ts, (t.1, t.2.1) ∈ slots) ∧
        slots2 ⊆ slots ∧
        slots2.Nodup ∧
        slots2.length + toVisit.length = slots.length ∧
        (∀ p ∈ slots, p ∈ slots2 ∨ p ∈ ts.map (fun t => (t.1, t.2.1))) ∧
        (∀ t ∈ ts, (t.1, t.2.1) ∉ slots2) := by
  intro toVisit
  induction toVisit with
  | nil =>
    intro slots ent _ hsnd _
    exact ⟨[], slots, rfl, rfl, by simp, by simp, fun p hp => hp, hsnd, by simp,
      fun p hp => Or.inl hp, by simp⟩
  | cons fs rest ih =>
    intro slots ent hnd hsnd hcov
    obtain ⟨a0, ha0l, ha0s⟩ := hcov fs (List.mem_cons_self _ _)
    have hposs : action_list.filter (fun a => slots.contains (fs, a)) ≠ [] := by
      intro hemp
      have hmem : a0 ∈ action_list.filter (fun a => slots.contains (fs, a)) :=
        List.mem_filter.mpr ⟨ha0l, List.elem_iff.mpr ha0s⟩
      rw [hemp] at hmem
      exact absurd hmem (List.not_mem_nil _)
    obtain ⟨a, hae, hamem⟩ := pyChoice_ne_nil hposs ent
    have haal : a ∈ action_list := (List.mem_filter.mp hamem).1
    have haslots : (fs, a) ∈ slots := List.elem_iff.mp (List.mem_filter.mp hamem).2
    obtain ⟨t0, hte, ht0⟩ := pyChoice_ne_nil hsl
      (pyChoice (action_list.filter (fun a => slots.contains (fs, a))) ent).2
    have hrest_nd : rest.Nodup := (List.nodup_cons.mp hnd).2
    have hfs_nr : fs ∉ rest := (List.nodup_cons.mp hnd).1
    have hsnd' : (slots.erase (fs, a)).Nodup := hsnd.erase _
    have hcov' : ∀ s ∈ rest, ∃ b ∈ action_list, (s, b) ∈ slots.erase (fs, a) := by
      intro s hs
      obtain ⟨b, hbl, hbs⟩ := hcov s (List.mem_cons_of_mem _ hs)
      refine ⟨b, hbl, ?_⟩
      have hne : (s, b) ≠ (fs, a) := by
        intro heq
        exact hfs_nr ((Prod.mk.injEq _ _ _ _ ▸ heq).1 ▸ hs)
      exact (List.mem_erase_of_ne hne).mpr hbs
    obtain ⟨ts, slots2, hres, hmapfst, hdst, hkey, hsub, hnd2, hlen, hcover, hnotin⟩ :=
      ih (slots.erase (fs, a))
        (pyChoice state_list
          (pyChoice (action_list.filter (fun a => slots.contains (fs, a))) ent).2).2
        hrest_nd hsnd' hcov'
    have h1 : (pyChoice (action_list.filter (fun a => slots.contains (fs, a))) ent).1 =
        some a := by rw [hae]
    have h2 : (pyChoice state_list
        (pyChoice (action_list.filter (fun a => slots.contains (fs, a))) ent).2).1 =
        some t0 := by rw [hte]
    refine ⟨(fs, a, t0) :: ts, slots2, stage1_cons_eq _ _ _ _ _ _ _ _ _ _ h1 h2 hres,
      ?_, ?_, ?_, ?_, hnd2, ?_, ?_, ?_⟩
    · simp [hmapfst]
    · intro t ht
      rcases List.mem_cons.mp ht with h | h
      · rw [h]; exact ht0
      · exact hdst t h
    · intro t ht
      rcases List.mem_cons.mp ht with h | h
      · rw [h]; exact haslots
      · exact List.erase_subset _ _ (hkey t h)
    · exact fun p hp => List.erase_subset _ _ (hsub hp)
    · have hslots_pos : 0 < slots.length := List.length_pos.mpr
        (fun hemp => by rw [hemp] at haslots; exact absurd haslots (List.not_mem_nil _))
      have herase : (slots.erase (fs, a)).length = slots.length - 1 :=
        List.length_erase_of_mem haslots
      rw [List.length_cons]
      omega
    · intro p hp
      by_cases hpe : p = (fs, a)
      · right
        rw [hpe]
        exact List.mem_cons_self _ _
      · rcases hcover p ((List.mem_erase_of_ne hpe).mpr hp) with h | h
        · exact Or.inl h
        · right
          rcases List.mem_map.mp h with ⟨t, htmem, hteq⟩
          exact List.mem_map.mpr ⟨t, List.mem_cons_of_mem _ htmem, hteq⟩
    · intro t ht
      rcases List.mem_cons.mp ht with h | h
      · rw [h]
        intro hin
        exact hsnd.not_mem_erase (hsub hin)
      · exact hnotin t h

theorem assignDests_cons_eq (sl : List String) (fs a : String)
    (rest : List (String × String)) (ent : List Nat) (t : String)
    (ts : List (String × String × String))
    (h1 : (pyChoice sl ent).1 = some t)
    (h2 : (assignDests sl rest (pyChoice sl ent).2).1 = some ts) :
    (assignDests sl ((fs, a) :: rest) ent).1 = some ((fs, a, t) :: ts) := by
  simp only [assignDests]
  rw [h1]
  simp only []
  rw [h2]

/-- Stage 2's destination pass always succeeds when the state list is
nonempty, keeps the sampled keys in order, and draws every destination from
the state list. -/
theorem assignDests_spec (sl : List String) (hsl : sl ≠ []) :
    ∀ (chosen : List (String × String)) (ent : List Nat),
      ∃ ts, (assignDests sl chosen ent).1 = some ts ∧
        ts.map (fun t => (t.1, t.2.1)) = chosen ∧
        (∀ t ∈ ts, t.2.2 ∈ sl) := by
  intro chosen
  induction chosen with
  | nil => exact fun ent => ⟨[], rfl, rfl, by simp⟩
  | cons p rest ih =>
    intro ent
    obtain ⟨fs, a⟩ := p
    obtain ⟨t0, hte, ht0⟩ := pyChoice_ne_nil hsl ent
    obtain ⟨ts, hres, hmap, hdst⟩ := ih (pyChoice sl ent).2
    have h1 : (pyChoice sl ent).1 = some t0 := by rw [hte]
    refine ⟨(fs, a, t0) :: ts, assignDests_cons_eq _ _ _ _ _ _ _ h1 hres, ?_, ?_⟩
    · simp [hmap]
    · intro t ht
      rcases List.mem_cons.mp ht with h | h
      · rw [h]; exact ht0
      · exact hdst t h

/-- Membership in the full `(state, action)` slot pool built by the
generator's double loop. -/
theorem mem_slotPool {sts acts : List String} {p : String × String} :
    p ∈ sts.flatMap (fun s => acts.map (fun a => (s, a))) ↔ p.1 ∈ sts ∧ p.2 ∈ acts := by
  obtain ⟨x, y⟩ := p
  simp only [List.mem_flatMap, List.mem_map, Prod.mk.injEq]
  constructor
  · rintro ⟨s, hs, a, ha, rfl, rfl⟩
    exact ⟨hs, ha⟩
  · rintro ⟨hx, hy⟩
    exact ⟨x, hx, y, hy, rfl, rfl⟩

theorem length_slotPool (sts acts : List String) :
    (sts.flatMap (fun s => acts.map (fun a => (s, a)))).length =
      sts.length * acts.length := by
  induction sts with
  | nil => simp
  | cons s rest ih => simp [ih, Nat.succ_mul, Nat.add_comm]

theorem nodup_slotPool {sts acts : List String} (h1 : sts.Nodup) (h2 : acts.Nodup) :
    (sts.flatMap (fun s => acts.map (fun a => (s, a)))).Nodup := by
  induction sts with
  | nil => simp
  | cons s rest ih =>
    rw [List.flatMap_cons]
    rcases List.nodup_cons.mp h1 with ⟨hsr, hrest⟩
    refine List.nodup_append.mpr ⟨?_, ih hrest, ?_⟩
    · exact h2.map (fun a b hab => (Prod.mk.injEq _ _ _ _ ▸ hab).2)
    · intro p hp hp'
      rcases List.mem_map.mp hp with ⟨a, _, rfl⟩
      exact hsr (mem_slotPool.mp hp').1

/-- Stages 1–2 plus the initial-state choice succeed under the validated
preconditions, and the resulting transition list has exactly `nt` entries with
pairwise-distinct `(from_state, action)` keys, covers every state, and (when
`nt` equals the full grid size) covers every `(state, action)` pair. -/
theorem buildFsm_ok (sts acts shuffled : List String) (slots : List (String × String))
    (nt ns : Nat) (e3 : List Nat)
    (hstsNe : sts ≠ []) (hactsNe : acts ≠ [])
    (hstsNd : sts.Nodup) (hshufPerm : shuffled.Perm sts)
    (hslotsNd : slots.Nodup)
    (hslotsMem : ∀ p : String × String, p ∈ slots ↔ p.1 ∈ sts ∧ p.2 ∈ acts)
    (hslotsLen : slots.length = sts.length * acts.length)
    (hns : sts.length = ns)
    (hntlb : ns ≤ nt) (hntub : nt ≤ ns * acts.length) :
    ∃ fsm, buildFsm sts acts shuffled slots (nt - ns) e3 = .ok fsm ∧
      fsm.states = sts ∧ fsm.actions = acts ∧
      fsm.transitions.length = nt ∧
      (fsm.transitions.map (fun t => (t.1, t.2.1))).Nodup ∧
      (∀ t ∈ fsm.transitions, t.1 ∈ sts ∧ t.2.1 ∈ acts ∧ t.2.2 ∈ sts) ∧
      (∀ s ∈ sts, ∃ t ∈ fsm.transitions, t.1 = s) ∧
      (∃ i, fsm.initial_state = some i ∧ i ∈ sts) ∧
      (nt = ns * acts.length →
        ∀ s ∈ sts, ∀ a ∈ acts, ∃ t ∈ fsm.transitions, t.1 = s ∧ t.2.1 = a) := by
  have hshufNd : shuffled.Nodup := hshufPerm.nodup_iff.mpr hstsNd
  have hcov : ∀ s ∈ shuffled, ∃ a ∈ acts, (s, a) ∈ slots := by
    intro s hs
    obtain ⟨a0, ha0⟩ := List.exists_mem_of_ne_nil acts hactsNe
    exact ⟨a0, ha0, (hslotsMem (s, a0)).mpr ⟨hshufPerm.subset hs, ha0⟩⟩
  obtain ⟨ts1, slots1, hres1, hmapfst, hdst1, hkey1, hsub1, hnd1, hlen1, hcover1, hnotin1⟩ :=
    stage1_spec sts acts hstsNe shuffled slots e3 hshufNd hslotsNd hcov
  have hshufLen : shuffled.length = ns := hshufPerm.length_eq.trans hns
  have hts1Len : ts1.length = ns := by
    have h := congrArg List.length hmapfst
    rw [List.length_map] at h
    rw [h, hshufLen]
  have hts1KeyNd : (ts1.map (fun t => (t.1, t.2.1))).Nodup := by
    have hfst : (ts1.map (fun t => (t.1, t.2.1))).map Prod.fst = ts1.map (fun t => t.1) := by
      rw [List.map_map]; rfl
    have hnd' : ((ts1.map (fun t => (t.1, t.2.1))).map Prod.fst).Nodup := by
      rw [hfst, hmapfst]; exact hshufNd
    exact hnd'.of_map
  have hslots1Len : slots1.length + ns = ns * acts.length := by
    have h := hlen1
    rw [hshufLen, hslotsLen, hns] at h
    exact h
  have hts1mem : ∀ t ∈ ts1, t.1 ∈ sts ∧ t.2.1 ∈ acts ∧ t.2.2 ∈ sts := by
    intro t ht
    have hk := (hslotsMem _).mp (hkey1 t ht)
    exact ⟨hk.1, hk.2, hdst1 t ht⟩
  have hcov_states : ∀ s ∈ sts, ∃ t ∈ ts1, t.1 = s := by
    intro s hs
    have : s ∈ ts1.map (fun t => t.1) := by rw [hmapfst]; exact hshufPerm.mem_iff.mpr hs
    rcases List.mem_map.mp this with ⟨t, ht, hteq⟩
    exact ⟨t, ht, hteq⟩
  by_cases hrem : 0 < nt - ns
  · -- Stage 2 actually samples `nt - ns` further slots.
    obtain ⟨csub, cndF, clenF⟩ :=
      pySample_spec slots1 (nt - ns) (stage1 sts acts shuffled slots e3).2
    have hcnd := cndF hnd1
    have hclen := clenF (by omega)
    obtain ⟨ts2, hres2, hmap2, hdst2⟩ := assignDests_spec sts hstsNe
      (pySample slots1 (nt - ns) (stage1 sts acts shuffled slots e3).2).1
      (pySample slots1 (nt - ns) (stage1 sts acts shuffled slots e3).2).2
    obtain ⟨init, hinitE, hinitMem⟩ := pyChoice_ne_nil hstsNe
      (assignDests sts
        (pySample slots1 (nt - ns) (stage1 sts acts shuffled slots e3).2).1
        (pySample slots1 (nt - ns) (stage1 sts acts shuffled slots e3).2).2).2
    have hinitEq : (pyChoice sts
        (assignDests sts
          (pySample slots1 (nt - ns) (stage1 sts acts shuffled slots e3).2).1
          (pySample slots1 (nt - ns) (stage1 sts acts shuffled slots e3).2).2).2).1 =
        some init := by rw [hinitE]
    have hbuild : buildFsm sts acts shuffled slots (nt - ns) e3 =
        .ok ⟨sts, acts, ts1 ++ ts2, some init⟩ := by
      simp only [buildFsm]
      rw [hres1]
      simp only []
      rw [if_pos hrem]
      rw [hres2]
      simp only []
      rw [hinitEq]
    have hts2Len : ts2.length = nt - ns := by
      have h := congrArg List.length hmap2
      rw [List.length_map] at h
      rw [h, hclen]
    have hkeys2sub : ∀ t ∈ ts2, (t.1, t.2.1) ∈ slots1 := by
      intro t ht
      have : (t.1, t.2.1) ∈ ts2.map (fun t => (t.1, t.2.1)) := List.mem_map_of_mem _ ht
      rw [hmap2] at this
      exact csub this
    refine ⟨⟨sts, acts, ts1 ++ ts2, some init⟩, hbuild, rfl, rfl, ?_, ?_, ?_, ?_,
      ⟨init, rfl, hinitMem⟩, ?_⟩
    · rw [List.length_append, hts1Len, hts2Len]
      omega
    · rw [List.map_append]
      refine List.nodup_append.mpr ⟨hts1KeyNd, by rw [hmap2]; exact hcnd, ?_⟩
      intro p hp1 hp2
      rcases List.mem_map.mp hp1 with ⟨t, ht, hteq⟩
      rw [hmap2] at hp2
      exact hnotin1 t ht (hteq ▸ csub hp2)
    · intro t ht
      rcases List.mem_append.mp ht with h | h
      · exact hts1mem t h
      · have hk := (hslotsMem _).mp (hsub1 (hkeys2sub t h))
        exact ⟨hk.1, hk.2, hdst2 t h⟩
    · intro s hs
      obtain ⟨t, ht, hteq⟩ := hcov_states s hs
      exact ⟨t, List.mem_append_left _ ht, hteq⟩
    · intro hfull s hs a ha
      have hrem_eq : nt - ns = slots1.length := by omega
      have hperm2 : (pySample slots1 (nt - ns)
          (stage1 sts acts shuffled slots e3).2).1.Perm slots1 := by
        rw [hrem_eq]
        exact pySample_perm slots1 _
      have hp : (s, a) ∈ slots := (hslotsMem (s, a)).mpr ⟨hs, ha⟩
      rcases hcover1 (s, a) hp with h | h
      · have : (s, a) ∈ ts2.map (fun t => (t.1, t.2.1)) := by
          rw [hmap2]
          exact hperm2.mem_iff.mpr h
        rcases List.mem_map.mp this with ⟨t, ht, hteq⟩
        have h1 := congrArg Prod.fst hteq
        have h2 := congrArg Prod.snd hteq
        exact ⟨t, List.mem_append_right _ ht, h1, h2⟩
      · rcases List.mem_map.mp h with ⟨t, ht, hteq⟩
        have h1 := congrArg Prod.fst hteq
        have h2 := congrArg Prod.snd hteq
        exact ⟨t, List.mem_append_left _ ht, h1, h2⟩
  · -- `nt = ns`: stage 2 is skipped.
    have hnt : nt = ns := by omega
    obtain ⟨init, hinitE, hinitMem⟩ := pyChoice_ne_nil hstsNe
      (stage1 sts acts shuffled slots e3).2
    have hinitEq : (pyChoice sts (stage1 sts acts shuffled slots e3).2).1 =
        some init := by rw [hinitE]
    have hbuild : buildFsm sts acts shuffled slots (nt - ns) e3 =
        .ok ⟨sts, acts, ts1 ++ [], some init⟩ := by
      simp only [buildFsm]
      rw [hres1]
      simp only []
      rw [if_neg hrem]
      simp only []
      rw [hinitEq]
    refine ⟨⟨sts, acts, ts1 ++ [], some init⟩, hbuild, rfl, rfl, ?_, ?_, ?_, ?_,
      ⟨init, rfl, hinitMem⟩, ?_⟩
    · rw [List.append_nil, hts1Len, hnt]
    · rw [List.append_nil]
      exact hts1KeyNd
    · rw [List.append_nil]
      exact hts1mem
    · intro s hs
      obtain ⟨t, ht, hteq⟩ := hcov_states s hs
      exact ⟨t, by rw [List.append_nil]; exact ht, hteq⟩
    · intro hfull s hs a ha
      have hslots1nil : slots1 = [] := by
        have : slots1.length = 0 := by omega
        exact List.length_eq_zero.mp this
      have hp : (s, a) ∈ slots := (hslotsMem (s, a)).mpr ⟨hs, ha⟩
      rcases hcover1 (s, a) hp with h | h
      · rw [hslots1nil] at h
        exact absurd h (List.not_mem_nil _)
      · rcases List.mem_map.mp h with ⟨t, ht, hteq⟩
        have h1 := congrArg Prod.fst hteq
        have h2 := congrArg Prod.snd hteq
        exact ⟨t, by rw [List.append_nil]; exact ht, h1, h2⟩

/-- Master correctness theorem for `create_random_fsm` on the validated,
non-degenerate parameter range (`1 ≤ num_states`): generation succeeds and the
model has exactly `num_transitions` transitions over pairwise-distinct
`(state, action)` slots, every state has an outgoing transition, the initial
state is one of the sampled states, and — when `num_transitions` is the full
grid size — every `(state, action)` pair carries a transition. -/
theorem create_random_fsm_ok (ns na nt : Nat) (ent : List Nat)
    (h1 : 1 ≤ ns) (h2 : ns ≤ state_word_list.length)
    (h3 : na ≤ action_word_list.length) (h4 : ns ≤ nt) (h5 : nt ≤ ns * na) :
    ∃ fsm, create_random_fsm ns na nt ent = .ok fsm ∧
      fsm.states.length = ns ∧ fsm.states.Nodup ∧ fsm.actions.length = na ∧
      fsm.transitions.length = nt ∧
      (fsm.transitions.map (fun t => (t.1, t.2.1))).Nodup ∧
      (∀ t ∈ fsm.transitions, t.1 ∈ fsm.states ∧ t.2.1 ∈ fsm.actions ∧ t.2.2 ∈ fsm.states) ∧
      (∀ s ∈ fsm.states, ∃ t ∈ fsm.transitions, t.1 = s) ∧
      (∃ i, fsm.initial_state = some i ∧ i ∈ fsm.states) ∧
      (nt = ns * na →
        ∀ s ∈ fsm.states, ∀ a ∈ fsm.actions, ∃ t ∈ fsm.transitions, t.1 = s ∧ t.2.1 = a) := by
  have hna : 1 ≤ na := by
    rcases Nat.eq_zero_or_pos na with h | h
    · subst h
      rw [Nat.mul_zero] at h5
      omega
    · exact h
  have hpoolS : state_word_list.Nodup := by decide
  have hpoolA : action_word_list.Nodup := by decide
  obtain ⟨hstsSub, hstsNdF, hstsLenF⟩ := pySample_spec state_word_list ns ent
  have hstsNd := hstsNdF hpoolS
  have hstsLen := hstsLenF h2
  obtain ⟨hactsSub, hactsNdF, hactsLenF⟩ :=
    pySample_spec action_word_list na (pySample state_word_list ns ent).2
  have hactsNd := hactsNdF hpoolA
  have hactsLen := hactsLenF h3
  have hstsNe : (pySample state_word_list ns ent).1 ≠ [] := by
    intro hnil
    rw [hnil] at hstsLen
    simp at hstsLen
    omega
  have hactsNe : (pySample action_word_list na (pySample state_word_list ns ent).2).1 ≠ [] := by
    intro hnil
    rw [hnil] at hactsLen
    simp at hactsLen
    omega
  obtain ⟨fsm, hbuild, hst, hac, hcnt, hknd, hmem, hcovs, hinit, hfull⟩ :=
    buildFsm_ok (pySample state_word_list ns ent).1
      (pySample action_word_list na (pySample state_word_list ns ent).2).1
      (pySample (pySample state_word_list ns ent).1
        (pySample state_word_list ns ent).1.length
        (pySample action_word_list na (pySample state_word_list ns ent).2).2).1
      ((pySample state_word_list ns ent).1.flatMap
        (fun s => (pySample action_word_list na (pySample state_word_list ns ent).2).1.map
          (fun a => (s, a))))
      nt ns
      (pySample (pySample state_word_list ns ent).1
        (pySample state_word_list ns ent).1.length
        (pySample action_word_list na (pySample state_word_list ns ent).2).2).2
      hstsNe hactsNe hstsNd
      (pySample_perm _ _)
      (nodup_slotPool hstsNd hactsNd)
      (fun p => mem_slotPool)
      (length_slotPool _ _)
      hstsLen h4 (by rw [hactsLen]; exact h5)
  have heq : create_random_fsm ns na nt ent =
      buildFsm (pySample state_word_list ns ent).1
        (pySample action_word_list na (pySample state_word_list ns ent).2).1
        (pySample (pySample state_word_list ns ent).1
          (pySample state_word_list ns ent).1.length
          (pySample action_word_list na (pySample state_word_list ns ent).2).2).1
        ((pySample state_word_list ns ent).1.flatMap
          (fun s => (pySample action_word_list na (pySample state_word_list ns ent).2).1.map
            (fun a => (s, a))))
        (nt - ns)
        (pySample (pySample state_word_list ns ent).1
          (pySample state_word_list ns ent).1.length
          (pySample action_word_list na (pySample state_word_list ns ent).2).2).2 := by
    simp only [create_random_fsm]
    rw [if_neg (by omega), if_neg (by omega),
      if_neg (show ¬ ¬ (ns ≤ nt ∧ nt ≤ ns * na) from fun hcon => hcon ⟨h4, h5⟩)]
  refine ⟨fsm, heq.trans hbuild, ?_, ?_, ?_, hcnt, hknd, ?_, ?_, ?_, ?_⟩
  · rw [hst]; exact hstsLen
  · rw [hst]; exact hstsNd
  · rw [hac]; exact hactsLen
  · rw [hst, hac]; exact hmem
  · rw [hst]; exact hcovs
  · rw [hst]; exact hinit
  · intro hnt
    rw [hst, hac]
    exact hfull (by rw [hactsLen]; exact hnt)

/-- `FSMManager.simulate_sequence(start_state, length)`: repeats up to `length`
times; stops early (without consuming a draw, as the source `break`s before
calling `random.choice`) when the current state has no outgoing transitions;
otherwise picks a uniformly random available action and advances.  Returns the
action sequence, the final state, and the remaining entropy (the source's
`', '.join` of the sequence is applied at the call sites).  The `lookupTrans
… = none` inner branch is unreachable — the chosen action always comes from
`outgoingActions` — and is given an arbitrary harmless result. -/
def simulate_sequence (trans : List (String × String × String)) :
    String → Nat → List Nat → List String × String × List Nat
  | start, 0, ent => ([], start, ent)
  | start, n + 1, ent =>
    match (pyChoice (outgoingActions trans start) ent).1 with
    | none => ([], start, ent)
    | some a =>
      match lookupTrans trans start a with
      | none => ([], start, (pyChoice (outgoingActions trans start) ent).2)
      | some nxt =>
        let r := simulate_sequence trans nxt n (pyChoice (outgoingActions trans start) ent).2
        (a :: r.1, r.2.1, r.2.2)

/-- Folding the model's transition function over an action list: the
specification-side replay of a simulated sequence. -/
def applyActions (trans : List (String × String × String)) :
    String → List String → Option String
  | s, [] => some s
  | s, a :: rest =>
    match lookupTrans trans s a with
    | none => none
    | some nxt => applyActions trans nxt rest

theorem lookupTrans_isSome_of_mem {trans : List (String × String × String)}
    {s a : String} (h : a ∈ outgoingActions trans s) :
    ∃ nxt, lookupTrans trans s a = some nxt := by
  rcases List.mem_map.mp h with ⟨t, htf, hta⟩
  rcases List.mem_filter.mp htf with ⟨htmem, hts⟩
  have hfind : (trans.find? (fun t => t.1 == s && t.2.1 == a)).isSome := by
    rw [List.find?_isSome]
    refine ⟨t, htmem, ?_⟩
    rw [Bool.and_eq_true]
    exact ⟨hts, by rw [hta]; exact beq_self_eq_true a⟩
  rcases Option.isSome_iff_exists.mp hfind with ⟨t', ht'⟩
  exact ⟨t'.2.2, by rw [lookupTrans, ht']; rfl⟩

/-- If the lookup succeeds, the destination is the `to_state` of some listed
transition with the looked-up key. -/
theorem lookupTrans_mem {trans : List (String × String × String)} {s a nxt : String}
    (h : lookupTrans trans s a = some nxt) :
    ∃ t ∈ trans, t.1 = s ∧ t.2.1 = a ∧ t.2.2 = nxt := by
  rw [lookupTrans] at h
  rcases Option.map_eq_some'.mp h with ⟨t, htfind, hteq⟩
  have hpred := List.find?_some htfind
  rw [Bool.and_eq_true, beq_iff_eq, beq_iff_eq] at hpred
  exact ⟨t, List.mem_of_find?_eq_some htfind, hpred.1, hpred.2, hteq⟩

theorem simulate_sequence_nil_eq (trans : List (String × String × String))
    (s : String) (n : Nat) (ent : List Nat) (h : outgoingActions trans s = []) :
    simulate_sequence trans s (n + 1) ent = ([], s, ent) := by
  simp only [simulate_sequence, h, pyChoice]

theorem simulate_sequence_cons_eq (trans : List (String × String × String))
    (s : String) (n : Nat) (ent : List Nat) (a nxt : String)
    (h1 : (pyChoice (outgoingActions trans s) ent).1 = some a)
    (h2 : lookupTrans trans s a = some nxt) :
    simulate_sequence trans s (n + 1) ent =
      (a :: (simulate_sequence trans nxt n (pyChoice (outgoingActions trans s) ent).2).1,
       (simulate_sequence trans nxt n (pyChoice (outgoingActions trans s) ent).2).2.1,
       (simulate_sequence trans nxt n (pyChoice (outgoingActions trans s) ent).2).2.2) := by
  simp only [simulate_sequence]
  rw [h1]
  simp only []
  rw [h2]

/-- The simulator's contract: at most `n` actions, replaying the returned
actions from the start state reaches exactly the returned end state, and a
short sequence means the end state has no outgoing transitions. -/
theorem simulate_sequence_spec (trans : List (String × String × String))
    (s : String) (n : Nat) (ent : List Nat) :
    (simulate_sequence trans s n ent).1.length ≤ n ∧
    applyActions trans s (simulate_sequence trans s n ent).1 =
      some (simulate_sequence trans s n ent).2.1 ∧
    ((simulate_sequence trans s n ent).1.length < n →
      outgoingActions trans (simulate_sequence trans s n ent).2.1 = []) := by
  induction n generalizing s ent with
  | zero =>
    refine ⟨Nat.le_refl _, rfl, fun h => absurd h (by simp [simulate_sequence])⟩
  | succ n ih =>
    by_cases houtg : outgoingActions trans s = []
    · rw [simulate_sequence_nil_eq trans s n ent houtg]
      exact ⟨by simp, rfl, fun _ => houtg⟩
    · obtain ⟨a, hae, hamem⟩ := pyChoice_ne_nil houtg ent
      have h1 : (pyChoice (outgoingActions trans s) ent).1 = some a := by rw [hae]
      obtain ⟨nxt, h2⟩ := lookupTrans_isSome_of_mem hamem
      rw [simulate_sequence_cons_eq trans s n ent a nxt h1 h2]
      obtain ⟨ihlen, ihapply, ihshort⟩ :=
        ih nxt (pyChoice (outgoingActions trans s) ent).2
      refine ⟨?_, ?_, ?_⟩
      · simpa using Nat.succ_le_succ ihlen
      · show applyActions trans s (a :: _) = _
        simp only [applyActions, h2]
        exact ihapply
      · intro hshort
        refine ihshort ?_
        simpa using hshort

/-! ## FSM.py — prompt rendering -/

/-- Python tuple comparison on `(action, to_state)` pairs, as used by
`sorted(actions.items())`. -/
def pairLe (p q : String × String) : Prop :=
  p.1 < q.1 ∨ (p.1 = q.1 ∧ p.2 ≤ q.2)

/-- Lexicographic order on `(from_state, action, to_state)` triples: by state,
then action, then destination.  On lists with pairwise-distinct
`(from_state, action)` keys the destination tiebreak never fires, so this is
the spec's "sorted lexically by state then action". -/
def tripleLe (t u : String × String × String) : Prop :=
  t.1 < u.1 ∨ (t.1 = u.1 ∧ pairLe t.2 u.2)

instance : DecidableRel pairLe := fun p q => by
  unfold pairLe
  infer_instance

instance : DecidableRel tripleLe := fun t u => by
  unfold tripleLe pairLe
  infer_instance

instance : IsTotal (String × String) pairLe where
  total p q := by
    rcases lt_trichotomy p.1 q.1 with h | h | h
    · exact Or.inl (Or.inl h)
    · rcases le_total p.2 q.2 with h2 | h2
      · exact Or.inl (Or.inr ⟨h, h2⟩)
      · exact Or.inr (Or.inr ⟨h.symm, h2⟩)
    · exact Or.inr (Or.inl h)

instance : IsTrans (String × String) pairLe where
  trans p q r hpq hqr := by
    rcases hpq with h1 | ⟨h1, h1'⟩
    · rcases hqr with h2 | ⟨h2, _⟩
      · exact Or.inl (h1.trans h2)
      · exact Or.inl (h2 ▸ h1)
    · rcases hqr with h2 | ⟨h2, h2'⟩
      · exact Or.inl (h1 ▸ h2)
      · exact Or.inr ⟨h1.trans h2, h1'.trans h2'⟩

instance : IsAntisymm (String × String) pairLe where
  antisymm p q hpq hqp := by
    rcases hpq with h1 | ⟨h1, h1'⟩
    · rcases hqp with h2 | ⟨h2, _⟩
      · exact absurd (h1.trans h2) (lt_irrefl _)
      · exact absurd (h2 ▸ h1) (lt_irrefl _)
    · rcases hqp with h2 | ⟨h2, h2'⟩
      · exact absurd (h1 ▸ h2) (lt_irrefl _)
      · exact Prod.ext h1 (le_antisymm h1' h2')

instance : IsTotal (String × String × String) tripleLe where
  total t u := by
    rcases lt_trichotomy t.1 u.1 with h | h | h
    · exact Or.inl (Or.inl h)
    · rcases IsTotal.total (r := pairLe) t.2 u.2 with h2 | h2
      · exact Or.inl (Or.inr ⟨h, h2⟩)
      · exact Or.inr (Or.inr ⟨h.symm, h2⟩)
    · exact Or.inr (Or.inl h)

instance : IsTrans (String × String × String) tripleLe where
  trans t u v htu huv := by
    rcases htu with h1 | ⟨h1, h1'⟩
    · rcases huv with h2 | ⟨h2, _⟩
      · exact Or.inl (h1.trans h2)
      · exact Or.inl (h2 ▸ h1)
    · rcases huv with h2 | ⟨h2, h2'⟩
      · exact Or.inl (h1 ▸ h2)
      · exact Or.inr ⟨h1.trans h2, IsTrans.trans (r := pairLe) _ _ _ h1' h2'⟩

instance : IsAntisymm (String × String × String) tripleLe where
  antisymm t u htu hut := by
    rcases htu with h1 | ⟨h1, h1'⟩
    · rcases hut with h2 | ⟨h2, _⟩
      · exact absurd (h1.trans h2) (lt_irrefl _)
      · exact absurd (h2 ▸ h1) (lt_irrefl _)
    · rcases hut with h2 | ⟨h2, h2'⟩
      · exact absurd (h1 ▸ h2) (lt_irrefl _)
      · exact Prod.ext h1 (IsAntisymm.antisymm (r := pairLe) _ _ h1' h2')

/-- The transition lines of the prompt: `sorted(self.transitions.items())`
outer loop over the (distinct, sorted) from-states, `sorted(actions.items())`
inner loop over that state's `(action, to_state)` pairs.  An outer dict key
whose inner dict is empty contributes no line, so enumerating the distinct
from-states of the flat list is extensionally the same as enumerating the
non-empty outer dict keys. -/
def promptTransLines (trans : List (String × String × String)) : List String :=
  (List.insertionSort (fun a b => a ≤ b) (trans.map (fun t => t.1)).dedup).flatMap
    (fun fs =>
      (List.insertionSort pairLe ((trans.filter (fun t => t.1 == fs)).map (fun t => t.2))).map
        (fun p => "From " ++ fs ++ ", on action " ++ p.1 ++ ", go to " ++ p.2 ++ "."))

/-- `FSMManager._generate_example_flow`: a 3-turn worked example, each turn
simulating `random.randint(1, 2)` steps from where the previous turn ended.
Takes the transition table and the initial state (the parts of `self` it
reads) plus the entropy stream. -/
def generate_example_flow (trans : List (String × String × String)) (init : String)
    (ent : List Nat) : String :=
  let r1 := simulate_sequence trans init (pyRandint1to2 ent).1 (pyRandint1to2 ent).2
  let seq1 := String.intercalate ", " r1.1
  let end1 := r1.2.1
  let r2 := simulate_sequence trans end1 (pyRandint1to2 r1.2.2).1 (pyRandint1to2 r1.2.2).2
  let seq2 := String.intercalate ", " r2.1
  let end2 := r2.2.1
  let r3 := simulate_sequence trans end2 (pyRandint1to2 r2.2.2).1 (pyRandint1to2 r2.2.2).2
  let seq3 := String.intercalate ", " r3.1
  let end3 := r3.2.1
  String.intercalate "\n"
    ["Example Conversation Flow:\n",
     "(You begin silently in the " ++ init ++ " state. The user provides the first prompt.)",
     "User: " ++ seq1,
     "Assistant: <state>" ++ end1 ++ "</state>",
     "(Your internal state is now " ++ end1 ++ ". The user provides the second prompt.)",
     "User: " ++ seq2,
     "Assistant: <state>" ++ end2 ++ "</state>",
     "(Your internal state is now " ++ end2 ++ ". The user provides the third prompt.)",
     "User: " ++ seq3,
     "Assistant: <state>" ++ end3 ++ "</state>"]

/-- The prompt text up to (and including) the blank line before the worked
example — everything the source's f-string places before
`{example_flow_str}`.  Depends only on the model, never on the entropy. -/
def promptBeforeExample (fsm : FSM) (init : String) : String :=
  "Role & Goal: You are a meticulous Finite State Machine (FSM) executor. Your sole purpose is to function as a stateful processor based on the FSM definition and rules below. For each user message you receive, you will process it as a sequence of actions, update your internal state, and provide only the final state as your response.\n\n"
  ++ String.intercalate "\n"
      (["FSM Definition:\n",
        "States: " ++ String.intercalate ", "
          (List.insertionSort (fun a b => a ≤ b) fsm.states),
        "Initial State: " ++ init,
        "Transitions:"] ++ promptTransLines fsm.transitions)
  ++ "\n\nCore Operating Rules:\n\nYour initial state at the beginning of this conversation is "
  ++ init
  ++ ".\nEach user prompt will contain a comma-separated string of one or more actions (e.g., action1,action2). All provided actions and sequences are guaranteed to be valid according to the transitions defined above.\nYou must process the actions sequentially. The resulting state from one action becomes the starting state for the next action in the sequence.\nThe final state at the end of processing one user prompt becomes your starting state for the next user prompt. You must maintain this state across the entire conversation.\n\nOutput Format & Constraints:\n\nYour response must ONLY contain the final state after processing the entire action sequence.\nEnclose the final state in <state> tags.\nABSOLUTELY DO NOT provide any other text, explanation, or conversational filler. Your entire response must be, for example, <state>"
  ++ init
  ++ "</state>.\n\n"

/-- The prompt text after the worked example. -/
def promptAfterExample : String :=
  "\n\nYour configuration is complete. You will now strictly follow these rules for all subsequent user inputs. Begin.\n"

/-- `FSMManager.get_prompt_formatted_fsm`: empty when `initial_state` is falsy
(`None` or the empty string), otherwise the assembled f-string. -/
def get_prompt_formatted_fsm (fsm : FSM) (ent : List Nat) : String :=
  match fsm.initial_state with
  | none => ""
  | some init =>
    if init = "" then ""
    else
      promptBeforeExample fsm init
      ++ generate_example_flow fsm.transitions init ent
      ++ promptAfterExample

/-- The specification's enumeration: every `(from_state, action, to_state)`
triple, sorted lexically by state then action (destination as a final
tiebreak, which never fires on dict-representable transition lists). -/
def specSortedTransitions (trans : List (String × String × String)) :
    List (String × String × String) :=
  List.insertionSort tripleLe trans

/-- How one sorted triple is rendered into a prompt line. -/
def renderTransLine (t : String × String × String) : String :=
  "From " ++ t.1 ++ ", on action " ++ t.2.1 ++ ", go to " ++ t.2.2 ++ "."

theorem flatMap_congr {α β : Type} {l : List α} {f g : α → List β}
    (h : ∀ a ∈ l, f a = g a) : l.flatMap f = l.flatMap g := by
  induction l with
  | nil => rfl
  | cons x xs ih =>
    rw [List.flatMap_cons, List.flatMap_cons, h x (List.mem_cons_self _ _),
      ih (fun a ha => h a (List.mem_cons_of_mem _ ha))]

theorem flatMap_perm_of_perm {α β : Type} {l : List α} {f g : α → List β}
    (h : ∀ a ∈ l, (f a).Perm (g a)) : (l.flatMap f).Perm (l.flatMap g) := by
  induction l with
  | nil => exact List.Perm.refl _
  | cons x xs ih =>
    rw [List.flatMap_cons, List.flatMap_cons]
    exact (h x (List.mem_cons_self _ _)).append
      (ih (fun a ha => h a (List.mem_cons_of_mem _ ha)))

/-- Partitioning a list into its per-key buckets (over a duplicate-free,
covering key list) is a permutation of the list. -/
theorem flatMap_filter_key_perm {α κ : Type} [DecidableEq κ] (keyOf : α → κ) :
    ∀ (ks : List κ) (l : List α), ks.Nodup → (∀ x ∈ l, keyOf x ∈ ks) →
      (ks.flatMap (fun k => l.filter (fun x => keyOf x == k))).Perm l := by
  intro ks
  induction ks with
  | nil =>
    intro l _ hcov
    cases l with
    | nil => simp
    | cons x xs => exact absurd (hcov x (List.mem_cons_self _ _)) (List.not_mem_nil _)
  | cons k ks ih =>
    intro l hnd hcov
    rw [List.flatMap_cons]
    have hbuck : ∀ k' ∈ ks, l.filter (fun x => keyOf x == k') =
        (l.filter (fun x => !(keyOf x == k))).filter (fun x => keyOf x == k') := by
      intro k' hk'
      rw [List.filter_filter]
      refine List.filter_congr ?_
      intro x _
      by_cases hc : keyOf x = k'
      · have hkk : k ≠ k' := fun h => (List.nodup_cons.mp hnd).1 (h ▸ hk')
        have h1 : (keyOf x == k') = true := beq_iff_eq.mpr hc
        have h2 : (keyOf x == k) = false :=
          beq_eq_false_iff_ne.mpr (fun h => hkk (h.symm.trans hc))
        rw [h1, h2]
        rfl
      · have h1 : (keyOf x == k') = false := beq_eq_false_iff_ne.mpr hc
        rw [h1, Bool.false_and]
    have hcongr : ks.flatMap (fun k' => l.filter (fun x => keyOf x == k')) =
        ks.flatMap (fun k' =>
          (l.filter (fun x => !(keyOf x == k))).filter (fun x => keyOf x == k')) :=
      flatMap_congr hbuck
    rw [hcongr]
    have hcov' : ∀ x ∈ l.filter (fun x => !(keyOf x == k)), keyOf x ∈ ks := by
      intro x hx
      rcases List.mem_filter.mp hx with ⟨hxl, hxk⟩
      rcases List.mem_cons.mp (hcov x hxl) with h | h
      · rw [h] at hxk
        simp at hxk
      · exact h
    have hih := ih (l.filter (fun x => !(keyOf x == k))) (List.nodup_cons.mp hnd).2 hcov'
    exact (hih.append_left _).trans (List.filter_append_perm _ l)

/-- Each sorted inner bucket, re-paired with its from-state, is a permutation
of the corresponding filter of the transition list. -/
theorem bucket_perm (trans : List (String × String × String)) (fs : String) :
    ((List.insertionSort pairLe ((trans.filter (fun t => t.1 == fs)).map (fun t => t.2))).map
      (fun p => (fs, p.1, p.2))).Perm (trans.filter (fun t => t.1 == fs)) := by
  have h1 := (List.perm_insertionSort pairLe
    ((trans.filter (fun t => t.1 == fs)).map (fun t => t.2))).map
      (fun p : String × String => (fs, p.1, p.2))
  have h3 : (((trans.filter (fun t => t.1 == fs)).map (fun t => t.2)).map
      (fun p : String × String => (fs, p.1, p.2))) = trans.filter (fun t => t.1 == fs) := by
    rw [List.map_map]
    have hpt : ∀ t ∈ trans.filter (fun t => t.1 == fs),
        ((fun p : String × String => (fs, p.1, p.2)) ∘ (fun t : String × String × String => t.2)) t
          = id t := by
      intro t ht
      have hteq : t.1 = fs := beq_iff_eq.mp (List.mem_filter.mp ht).2
      show (fs, t.2.1, t.2.2) = t
      rw [← hteq]
    rw [List.map_congr_left hpt, List.map_id]
  rw [h3] at h1
  exact h1

theorem sorted_promptTriples (trans : List (String × String × String)) :
    ∀ (A : List String), A.Sorted (fun a b => a ≤ b) → A.Nodup →
      List.Sorted tripleLe (A.flatMap (fun fs =>
        (List.insertionSort pairLe
          ((trans.filter (fun t => t.1 == fs)).map (fun t => t.2))).map
            (fun p => (fs, p.1, p.2)))) := by
  intro A
  induction A with
  | nil => intro _ _; exact List.sorted_nil
  | cons fs rest ih =>
    intro hsort hnd
    rw [List.flatMap_cons]
    refine List.pairwise_append.mpr ⟨?_, ih hsort.of_cons (List.nodup_cons.mp hnd).2, ?_⟩
    · exact List.Pairwise.map _ (fun p q hpq => Or.inr ⟨rfl, hpq⟩)
        (List.sorted_insertionSort pairLe _)
    · intro x hx y hy
      rcases List.mem_map.mp hx with ⟨p, _, rfl⟩
      rcases List.mem_flatMap.mp hy with ⟨fs', hfs', hy'⟩
      rcases List.mem_map.mp hy' with ⟨q, _, rfl⟩
      have hle : fs ≤ fs' := (List.pairwise_cons.mp hsort).1 fs' hfs'
      have hne : fs ≠ fs' := fun h => (List.nodup_cons.mp hnd).1 (h ▸ hfs')
      exact Or.inl (lt_of_le_of_ne hle hne)

/-- The prompt's grouped, per-state-sorted enumeration of transitions equals
the flat enumeration sorted lexically by state, then action (then
destination). -/
theorem promptTransLines_eq_sorted (trans : List (String × String × String)) :
    promptTransLines trans = (specSortedTransitions trans).map renderTransLine := by
  have hA_sorted : List.Sorted (fun a b : String => a ≤ b)
      (List.insertionSort (fun a b => a ≤ b) (trans.map (fun t => t.1)).dedup) :=
    List.sorted_insertionSort _ _
  have hA_nd : (List.insertionSort (fun a b => a ≤ b)
      (trans.map (fun t => t.1)).dedup).Nodup :=
    (List.perm_insertionSort _ _).nodup_iff.mpr (List.nodup_dedup _)
  have hA_cov : ∀ x ∈ trans, x.1 ∈
      List.insertionSort (fun a b => a ≤ b) (trans.map (fun t => t.1)).dedup := by
    intro x hx
    exact (List.perm_insertionSort _ _).mem_iff.mpr
      (List.mem_dedup.mpr (List.mem_map_of_mem _ hx))
  have hperm : (List.insertionSort (fun a b => a ≤ b)
      (trans.map (fun t => t.1)).dedup).flatMap (fun fs =>
        (List.insertionSort pairLe
          ((trans.filter (fun t => t.1 == fs)).map (fun t => t.2))).map
            (fun p => (fs, p.1, p.2))) |>.Perm trans := by
    refine (flatMap_perm_of_perm (fun fs _ => bucket_perm trans fs)).trans ?_
    exact flatMap_filter_key_perm (fun t : String × String × String => t.1) _ trans hA_nd hA_cov
  have hsorted := sorted_promptTriples trans _ hA_sorted hA_nd
  have heq : (List.insertionSort (fun a b => a ≤ b)
      (trans.map (fun t => t.1)).dedup).flatMap (fun fs =>
        (List.insertionSort pairLe
          ((trans.filter (fun t => t.1 == fs)).map (fun t => t.2))).map
            (fun p => (fs, p.1, p.2))) = specSortedTransitions trans := by
    refine List.eq_of_perm_of_sorted
      (hperm.trans (List.perm_insertionSort tripleLe trans).symm) hsorted ?_
    exact List.sorted_insertionSort tripleLe trans
  calc promptTransLines trans
      = ((List.insertionSort (fun a b => a ≤ b)
          (trans.map (fun t => t.1)).dedup).flatMap (fun fs =>
            (List.insertionSort pairLe
              ((trans.filter (fun t => t.1 == fs)).map (fun t => t.2))).map
                (fun p => (fs, p.1, p.2)))).map renderTransLine := by
        rw [List.map_flatMap]
        refine flatMap_congr ?_
        intro fs _
        rw [List.map_map]
        rfl
    _ = (specSortedTransitions trans).map renderTransLine := by rw [heq]

theorem outgoingActions_ne_nil_of_mem {trans : List (String × String × String)}
    {s : String} (h : ∃ t ∈ trans, t.1 = s) : outgoingActions trans s ≠ [] := by
  rcases h with ⟨t, ht, hts⟩
  intro hemp
  have hmem : t.2.1 ∈ outgoingActions trans s :=
    List.mem_map_of_mem _ (List.mem_filter.mpr ⟨ht, beq_iff_eq.mpr hts⟩)
  rw [hemp] at hmem
  exact absurd hmem (List.not_mem_nil _)

/-- On a model whose reachable states all have outgoing transitions (closed
under destinations), the simulator never stops early. -/
theorem simulate_length_of_total (trans : List (String × String × String))
    (sts : List String)
    (hout : ∀ s ∈ sts, outgoingActions trans s ≠ [])
    (hclosed : ∀ t ∈ trans, t.2.2 ∈ sts) :
    ∀ (n : Nat) (s : String), s ∈ sts → ∀ ent,
      (simulate_sequence trans s n ent).1.length = n := by
  intro n
  induction n with
  | zero => intro s _ ent; rfl
  | succ n ih =>
    intro s hs ent
    obtain ⟨a, hae, hamem⟩ := pyChoice_ne_nil (hout s hs) ent
    have h1 : (pyChoice (outgoingActions trans s) ent).1 = some a := by rw [hae]
    obtain ⟨nxt, h2⟩ := lookupTrans_isSome_of_mem hamem
    rw [simulate_sequence_cons_eq trans s n ent a nxt h1 h2]
    obtain ⟨t, htmem, _, _, htdst⟩ := lookupTrans_mem h2
    have hnxt : nxt ∈ sts := htdst ▸ hclosed t htmem
    rw [List.length_cons, ih nxt hnxt _]

/-- C4 (counterexample).  `num_states = 0` is inside every bound the claim
states (`0` fits both name pools and `0 ≤ 0 ≤ 0 · 0`), yet the source crashes
with an uncaught `IndexError` at `random.choice(state_list)` on the empty
state list, so no model with the claimed properties is produced. -/
theorem C4_counterexample : create_random_fsm 0 0 0 [] = GenResult.crash := by decide

/-- C4 (amended).  For all `(num_states, num_actions, num_transitions)` with
`1 ≤ num_states`, `num_states` within the state name pool, `num_actions`
within the action name pool and
`num_states ≤ num_transitions ≤ num_states · num_actions`, the generator
returns a model with exactly `num_transitions` transitions (over
pairwise-distinct `(state, action)` slots), in which every sampled state has
at least one outgoing transition and the initial state is one of the sampled
states — for every stream of random draws. -/
theorem C4_generator_contract (ns na nt : Nat) (ent : List Nat)
    (h1 : 1 ≤ ns) (h2 : ns ≤ state_word_list.length)
    (h3 : na ≤ action_word_list.length) (h4 : ns ≤ nt) (h5 : nt ≤ ns * na) :
    ∃ fsm, create_random_fsm ns na nt ent = GenResult.ok fsm ∧
      fsm.transitions.length = nt ∧
      (fsm.transitions.map (fun t => (t.1, t.2.1))).Nodup ∧
      (∀ s ∈ fsm.states, ∃ t ∈ fsm.transitions, t.1 = s) ∧
      (∃ i, fsm.initial_state = some i ∧ i ∈ fsm.states) := by
  obtain ⟨fsm, heq, _, _, _, hcnt, hknd, _, hcov, hinit, _⟩ :=
    create_random_fsm_ok ns na nt ent h1 h2 h3 h4 h5
  exact ⟨fsm, heq, hcnt, hknd, hcov, hinit⟩

/-- C4 (witness): the contract evaluated at `(2, 2, 3)` with an empty
entropy stream. -/
theorem C4_witness :
    ∃ fsm, create_random_fsm 2 2 3 [] = GenResult.ok fsm ∧
      fsm.transitions.length = 3 ∧
      (fsm.transitions.map (fun t => (t.1, t.2.1))).Nodup ∧
      (∀ s ∈ fsm.states, ∃ t ∈ fsm.transitions, t.1 = s) ∧
      (∃ i, fsm.initial_state = some i ∧ i ∈ fsm.states) :=
  C4_generator_contract 2 2 3 [] (by decide) (by decide) (by decide) (by decide) (by decide)

/-- C5 (counterexample).  When the capacity check and the range check are
both violated (`num_states = 100` exceeds the 61-name state pool and
`num_transitions = 0` is below `num_states`), the source reports the capacity
failure, not the `range_error` the claim requires for every out-of-range
`num_transitions`. -/
theorem C5_counterexample :
    create_random_fsm 100 1 0 [] = GenResult.capacityError ∧
    ¬ (100 ≤ 0 ∧ 0 ≤ 100 * 1) ∧
    GenResult.capacityError ≠ GenResult.rangeError := by decide

/-- C5 (amended).  The generator fails with `capacity_error` whenever
`num_states` exceeds the state name pool, or (that check passing)
`num_actions` exceeds the action name pool; it fails with `range_error`
whenever both capacity checks pass and `num_transitions` is outside
`[num_states, num_states · num_actions]`; in every such failure no FSM Model
is created. -/
theorem C5_generator_error_paths (ns na nt : Nat) (ent : List Nat) :
    (state_word_list.length < ns → create_random_fsm ns na nt ent = GenResult.capacityError) ∧
    (ns ≤ state_word_list.length → action_word_list.length < na →
      create_random_fsm ns na nt ent = GenResult.capacityError) ∧
    (ns ≤ state_word_list.length → na ≤ action_word_list.length →
      ¬ (ns ≤ nt ∧ nt ≤ ns * na) → create_random_fsm ns na nt ent = GenResult.rangeError) ∧
    ((state_word_list.length < ns ∨ action_word_list.length < na ∨
        ¬ (ns ≤ nt ∧ nt ≤ ns * na)) →
      ∀ fsm, create_random_fsm ns na nt ent ≠ GenResult.ok fsm) := by
  refine ⟨?_, ?_, ?_, ?_⟩
  · intro hc
    simp only [create_random_fsm]
    rw [if_pos hc]
  · intro hc1 hc2
    simp only [create_random_fsm]
    rw [if_neg (by omega), if_pos hc2]
  · intro hc1 hc2 hc3
    simp only [create_random_fsm]
    rw [if_neg (by omega), if_neg (by omega), if_pos hc3]
  · intro hc fsm heq
    rcases hc with h | h | h
    · simp only [create_random_fsm] at heq
      rw [if_pos h] at heq
      exact GenResult.noConfusion heq
    · by_cases h1 : state_word_list.length < ns
      · simp only [create_random_fsm] at heq
        rw [if_pos h1] at heq
        exact GenResult.noConfusion heq
      · simp only [create_random_fsm] at heq
        rw [if_neg h1, if_pos h] at heq
        exact GenResult.noConfusion heq
    · by_cases h1 : state_word_list.length < ns
      · simp only [create_random_fsm] at heq
        rw [if_pos h1] at heq
        exact GenResult.noConfusion heq
      · by_cases h2 : action_word_list.length < na
        · simp only [create_random_fsm] at heq
          rw [if_neg h1, if_pos h2] at heq
          exact GenResult.noConfusion heq
        · simp only [create_random_fsm] at heq
          rw [if_neg h1, if_neg h2, if_pos h] at heq
          exact GenResult.noConfusion heq

/-- C5 (witness): one concrete input per error path. -/
theorem C5_witness :
    create_random_fsm 62 1 1 [] = GenResult.capacityError ∧
    create_random_fsm 1 53 1 [] = GenResult.capacityError ∧
    create_random_fsm 5 2 3 [] = GenResult.rangeError :=
  ⟨(C5_generator_error_paths 62 1 1 []).1 (by decide),
   (C5_generator_error_paths 1 53 1 []).2.1 (by decide) (by decide),
   (C5_generator_error_paths 5 2 3 []).2.2.1 (by decide) (by decide) (by decide)⟩

/-- C6.  For every model, start state, requested length and random stream,
`simulate_sequence` returns at most `n` actions; folding the model's
transition function over the returned sequence from the start state yields
exactly the returned end state; and the sequence is shorter than `n` only
when the returned end state has no outgoing transitions (which stops the
simulation early, without error). -/
theorem C6_simulate_contract (trans : List (String × String × String))
    (s : String) (n : Nat) (ent : List Nat) :
    (simulate_sequence trans s n ent).1.length ≤ n ∧
    applyActions trans s (simulate_sequence trans s n ent).1 =
      some (simulate_sequence trans s n ent).2.1 ∧
    ((simulate_sequence trans s n ent).1.length < n →
      outgoingActions trans (simulate_sequence trans s n ent).2.1 = []) :=
  simulate_sequence_spec trans s n ent

/-- C6 (witness): a one-transition model where the simulation stops after one
step of the two requested. -/
theorem C6_witness :
    (simulate_sequence [("a", "x", "b")] "a" 2 []).1.length ≤ 2 ∧
    applyActions [("a", "x", "b")] "a" (simulate_sequence [("a", "x", "b")] "a" 2 []).1 =
      some (simulate_sequence [("a", "x", "b")] "a" 2 []).2.1 ∧
    outgoingActions [("a", "x", "b")] (simulate_sequence [("a", "x", "b")] "a" 2 []).2.1 = [] :=
  ⟨(C6_simulate_contract [("a", "x", "b")] "a" 2 []).1,
   (C6_simulate_contract [("a", "x", "b")] "a" 2 []).2.1,
   (C6_simulate_contract [("a", "x", "b")] "a" 2 []).2.2 (by decide)⟩

/-- C9.  With `num_states = 4`, `num_actions = 5`, `num_transitions = 20`
(the full grid), whatever the random draws: every `(state, action)` pair of
the generated model carries a transition, and simulation from any state of
the model, for any requested length, returns a sequence of exactly that
length — it never terminates early. -/
theorem C9_full_grid (ent : List Nat) (fsm : FSM)
    (h : create_random_fsm 4 5 20 ent = GenResult.ok fsm)
    (s a : String) (hs : s ∈ fsm.states) (ha : a ∈ fsm.actions)
    (n : Nat) (e2 : List Nat) :
    (∃ t ∈ fsm.transitions, t.1 = s ∧ t.2.1 = a) ∧
    (simulate_sequence fsm.transitions s n e2).1.length = n := by
  obtain ⟨fsm', heq, _, _, _, _, _, hmem, hcov, _, hfull⟩ :=
    create_random_fsm_ok 4 5 20 ent (by decide) (by decide) (by decide)
      (by decide) (by decide)
  rw [h] at heq
  injection heq with heq'
  subst heq'
  refine ⟨hfull (by decide) s hs a ha, ?_⟩
  refine simulate_length_of_total fsm.transitions fsm.states ?_ ?_ n s hs e2
  · intro s' hs'
    exact outgoingActions_ne_nil_of_mem (hcov s' hs')
  · intro t ht
    exact (hmem t ht).2.2

/-- The model generated for C9's witness with the all-zero entropy stream. -/
def c9fsm : FSM :=
  match create_random_fsm 4 5 20 [] with
  | GenResult.ok f => f
  | _ => default

/-- C9 (witness): the full-grid theorem evaluated on the concrete model built
from the empty entropy stream. -/
theorem C9_witness :
    (∃ t ∈ c9fsm.transitions, t.1 = "ant" ∧ t.2.1 = "blue") ∧
    (simulate_sequence c9fsm.transitions "ant" 3 []).1.length = 3 :=
  C9_full_grid [] c9fsm (by decide) "ant" "blue" (by decide) (by decide) 3 []

/-- C3 (counterexample).  The rendering is *not* a function of the model
alone: `_generate_example_flow` consumes fresh randomness
(`random.randint(1, 2)` step counts and `random.choice` action picks), so two
invocations on the same one-state model produce different text — here the
worked example walks 1 step in the first rendering and 2 steps in the
second. -/
theorem string_append_cancel_left {a x y : String} (h : a ++ x = a ++ y) : x = y := by
  obtain ⟨la⟩ := a
  obtain ⟨lx⟩ := x
  obtain ⟨ly⟩ := y
  have hl : la ++ lx = la ++ ly := by
    have hd := congrArg String.data h
    simpa [String.data_append] using hd
  exact congrArg String.mk (List.append_cancel_left hl)

theorem string_append_cancel_right {a x y : String} (h : x ++ a = y ++ a) : x = y := by
  obtain ⟨la⟩ := a
  obtain ⟨lx⟩ := x
  obtain ⟨ly⟩ := y
  have hl : lx ++ la = ly ++ la := by
    have hd := congrArg String.data h
    simpa [String.data_append] using hd
  exact congrArg String.mk (List.append_cancel_right hl)

set_option maxRecDepth 4000 in
theorem C3_counterexample :
    get_prompt_formatted_fsm ⟨["a"], ["x"], [("a", "x", "a")], some "a"⟩ [0] ≠
      get_prompt_formatted_fsm ⟨["a"], ["x"], [("a", "x", "a")], some "a"⟩ [1] := by
  intro h
  have h' : promptBeforeExample ⟨["a"], ["x"], [("a", "x", "a")], some "a"⟩ "a" ++
        generate_example_flow [("a", "x", "a")] "a" [0] ++ promptAfterExample =
      promptBeforeExample ⟨["a"], ["x"], [("a", "x", "a")], some "a"⟩ "a" ++
        generate_example_flow [("a", "x", "a")] "a" [1] ++ promptAfterExample := h
  have hf : generate_example_flow [("a", "x", "a")] "a" [0] =
      generate_example_flow [("a", "x", "a")] "a" [1] :=
    string_append_cancel_left (string_append_cancel_right h')
  exact absurd hf (by decide)

/-- C3 (amended).  The rendering is deterministic given the model *and* the
random draws: the text is the entropy-independent FSM-definition-and-rules
template with the worked 3-turn example interpolated, so two invocations
whose worked examples coincide produce byte-identical text; and the
template's transition block enumerates every `(from_state, action, to_state)`
triple sorted lexically by state then action. -/
theorem C3_rendering_amended (fsm : FSM) (init : String)
    (hinit : fsm.initial_state = some init) (hne : init ≠ "") (e1 e2 : List Nat) :
    (generate_example_flow fsm.transitions init e1 =
        generate_example_flow fsm.transitions init e2 →
      get_prompt_formatted_fsm fsm e1 = get_prompt_formatted_fsm fsm e2) ∧
    get_prompt_formatted_fsm fsm e1 =
      promptBeforeExample fsm init ++ generate_example_flow fsm.transitions init e1 ++
        promptAfterExample ∧
    promptTransLines fsm.transitions =
      (specSortedTransitions fsm.transitions).map renderTransLine := by
  have hrender : ∀ e : List Nat, get_prompt_formatted_fsm fsm e =
      promptBeforeExample fsm init ++ generate_example_flow fsm.transitions init e ++
        promptAfterExample := by
    intro e
    simp only [get_prompt_formatted_fsm, hinit]
    rw [if_neg hne]
  refine ⟨?_, hrender e1, promptTransLines_eq_sorted fsm.transitions⟩
  intro hflow
  rw [hrender e1, hrender e2, hflow]

/-- C3 (witness): the amended determinism and enumeration facts evaluated on
a concrete one-transition model. -/
theorem C3_witness :
    (get_prompt_formatted_fsm ⟨["a"], ["x"], [("a", "x", "a")], some "a"⟩ [] =
      get_prompt_formatted_fsm ⟨["a"], ["x"], [("a", "x", "a")], some "a"⟩ []) ∧
    promptTransLines [("a", "x", "a")] =
      (specSortedTransitions [("a", "x", "a")]).map renderTransLine :=
  ⟨(C3_rendering_amended ⟨["a"], ["x"], [("a", "x", "a")], some "a"⟩ "a" rfl
      (by decide) [] []).1 rfl,
   (C3_rendering_amended ⟨["a"], ["x"], [("a", "x", "a")], some "a"⟩ "a" rfl
      (by decide) [] []).2.2⟩

/-! ## database_manager.py — the run store -/

/-- One row of `experiment_runs`, as deserialized by the store.  (`run_id`,
the SQLite autoincrement surrogate, is not part of the spec's Run Record —
identity is `(instance_id, run_identifier)` — and no caller reads it, so it
is not modeled.) -/
structure RunRecord where
  instance_id : Nat
  model_name : String
  conversation_history : List (String × String)
  current_turn : Nat
  ground_truth_state : String
  last_llm_state : String
  is_task_correct : Bool
  is_complete : Bool
deriving DecidableEq, Inhabited

/-- One row of `error_log`. -/
structure ErrorRow where
  model_name : String
  instance_id : Nat
  turn_number : Nat
  task_length : Nat
  expected_state : String
  llm_raw_response : String
  failure_type : String
deriving DecidableEq, Inhabited

/-- One row of `results` (an Aggregate Row). -/
structure ResultRow where
  model_name : String
  task_length : Nat
  turn_successes : Nat
  task_successes : Nat
  total_runs : Nat
deriving DecidableEq, Inhabited

/-- The whole SQLite store: the four tables as row lists in insertion order. -/
structure DB where
  fsm_definitions : List (Nat × FSM)
  experiment_runs : List RunRecord
  error_log : List ErrorRow
  results : List ResultRow
deriving DecidableEq, Inhabited

/-- `_get_max_existing_instance_id`: SQL `MAX` over the definitions, `0` when
the table is empty (`NULL` in SQL). -/
def maxInstanceId (defs : List (Nat × FSM)) : Nat :=
  defs.foldr (fun d m => max d.1 m) 0

/-- The `errors_by_instance` sets of `handle_sample_size_change`, as the
turn-number list of one instance (only membership is ever queried). -/
def errTurnsOf (errs : List (Nat × Nat)) (i : Nat) : List Nat :=
  (errs.filter (fun e => e.1 == i)).map (fun e => e.2)

/-- The per-turn counting loop of the aggregate rebuild, over the fetched
`(instance_id, current_turn)` run rows and `(instance_id, turn_number)` error
rows: a run is skipped when `current_turn < turn`; otherwise it counts toward
`total_runs`, toward `turn_successes` when no error has exactly this turn
number, and toward `task_successes` when no error has turn number `≤ turn`. -/
def aggCounts (errs : List (Nat × Nat)) (turn : Nat) (runs : List (Nat × Nat)) :
    Nat × Nat × Nat :=
  runs.foldl
    (fun acc p =>
      if p.2 < turn then acc
      else
        (acc.1 + 1,
         acc.2.1 + (if (errTurnsOf errs p.1).contains turn then 0 else 1),
         acc.2.2 + (if (errTurnsOf errs p.1).any (fun e => decide (e ≤ turn)) then 0 else 1)))
    (0, 0, 0)

/-- Step 3 of `handle_sample_size_change`: for every `turn` in
`[1, total_turns]`, an Aggregate Row at `task_length = turn × steps_per_turn`
is inserted iff at least one run reached that turn. -/
def rebuildAgg (model : String) (total_turns steps_per_turn : Nat)
    (runs errs : List (Nat × Nat)) : List ResultRow :=
  (List.range total_turns).filterMap (fun t0 =>
    let turn := t0 + 1
    let c := aggCounts errs turn runs
    if 0 < c.1 then
      some ⟨model, turn * steps_per_turn, c.2.1, c.2.2, c.1⟩
    else none)

/-- `DatabaseManager.handle_sample_size_change`: a no-op unless the new
target is a reduction; otherwise purge all rows (of every model) above the
target, wipe this model's Aggregate Rows, and rebuild them from this model's
surviving run and error rows. -/
def handle_sample_size_change (db : DB) (new_total_instances : Nat)
    (model_name : String) (total_turns steps_per_turn : Nat) : DB :=
  if maxInstanceId db.fsm_definitions ≤ new_total_instances then db
  else
    let defs2 := db.fsm_definitions.filter (fun d => decide (d.1 ≤ new_total_instances))
    let runs2 := db.experiment_runs.filter (fun r => decide (r.instance_id ≤ new_total_instances))
    let errs2 := db.error_log.filter (fun e => decide (e.instance_id ≤ new_total_instances))
    let results2 := db.results.filter (fun r => !(r.model_name == model_name))
    let all_runs := (runs2.filter (fun r => r.model_name == model_name &&
        decide (r.instance_id ≤ new_total_instances))).map
          (fun r => (r.instance_id, r.current_turn))
    let all_errors := (errs2.filter (fun e => e.model_name == model_name &&
        decide (e.instance_id ≤ new_total_instances))).map
          (fun e => (e.instance_id, e.turn_number))
    { fsm_definitions := defs2, experiment_runs := runs2, error_log := errs2,
      results := results2 ++
        rebuildAgg model_name total_turns steps_per_turn all_runs all_errors }

/-- `SELECT * FROM experiment_runs WHERE instance_id = ? AND model_name = ?`. -/
def lookupRun (db : DB) (iid : Nat) (model : String) : Option RunRecord :=
  db.experiment_runs.find? (fun r => r.instance_id == iid && r.model_name == model)

/-- `SELECT fsm_definition FROM fsm_definitions WHERE instance_id = ?`. -/
def lookupDefinition (db : DB) (iid : Nat) : Option FSM :=
  (db.fsm_definitions.find? (fun d => d.1 == iid)).map (fun d => d.2)

/-- `DatabaseManager.get_or_create_run_state`.  `none` models the raised
exceptions: the fatal "FSM Definition not found" error, and (for a corrupt
definition with no initial state) the `NOT NULL` violation the insert would
raise.  On the create path the freshly built record is both persisted and
returned, with `current_turn = 0`, both state fields at the definition's
initial state, `is_task_correct = true`, `is_complete = false`, and the
conversation seeded with the rendered prompt under the role selected by
`supports_system_prompt`. -/
def get_or_create_run_state (db : DB) (instance_id : Nat) (model_name : String)
    (supports_system_prompt : Bool) (ent : List Nat) : Option (RunRecord × DB) :=
  match lookupRun db instance_id model_name with
  | some r => some (r, db)
  | none =>
    match lookupDefinition db instance_id with
    | none => none
    | some defn =>
      match defn.initial_state with
      | none => none
      | some ginit =>
        let system_prompt := get_prompt_formatted_fsm defn ent
        let initial_conversation :=
          if supports_system_prompt then [("system", system_prompt)]
          else [("user", system_prompt)]
        let newRec : RunRecord :=
          { instance_id := instance_id, model_name := model_name,
            conversation_history := initial_conversation,
            current_turn := 0, ground_truth_state := ginit,
            last_llm_state := ginit, is_task_correct := true, is_complete := false }
        some (newRec, { db with experiment_runs := db.experiment_runs ++ [newRec] })

/-- The per-record update of `prepare_runs_for_extension`: clear
`is_complete` when this model's completed run stopped short of the new turn
budget. -/
def extension_reset (model_name : String) (new_total_turns : Nat)
    (r : RunRecord) : RunRecord :=
  if r.model_name == model_name && r.is_complete &&
      decide (r.current_turn < new_total_turns)
  then { r with is_complete := false } else r

/-- `DatabaseManager.prepare_runs_for_extension`: the SQL `UPDATE` applied
row by row. -/
def prepare_runs_for_extension (db : DB) (model_name : String)
    (new_total_turns : Nat) : DB :=
  { db with experiment_runs :=
      db.experiment_runs.map (extension_reset model_name new_total_turns) }

/-! ## experiment_runner.py — the per-turn driver -/

/-- `experiment_runner.simulate_turn`: like `simulate_sequence` but also
stops on a falsy (empty) current state, mirroring
`if not current_state or not fsm_manager.transitions.get(current_state)`. -/
def simulate_turn (trans : List (String × String × String)) :
    String → Nat → List Nat → List String × String × List Nat
  | start, 0, ent => ([], start, ent)
  | start, n + 1, ent =>
    if start = "" then ([], start, ent)
    else
      match (pyChoice (outgoingActions trans start) ent).1 with
      | none => ([], start, ent)
      | some a =>
        match lookupTrans trans start a with
        | none => ([], start, (pyChoice (outgoingActions trans start) ent).2)
        | some nxt =>
          let r := simulate_turn trans nxt n (pyChoice (outgoingActions trans start) ent).2
          (a :: r.1, r.2.1, r.2.2)

/-- One iteration of the `while state["current_turn"] < TURNS_PER_INSTANCE`
loop of `process_run`, restricted to its effect on the Run Record
(`db.log_error`/`db.update_results` touch other tables).  `raw_response` is
the boundary collaborator's reply and `llm_state` its decoded
`<state>` value (`decode_response(raw_response)`), both external inputs
here: the invariants below hold for every possible reply. -/
def process_turn (trans : List (String × String × String)) (steps_per_turn : Nat)
    (raw_response : String) (llm_state : Option String) (ent : List Nat)
    (st : RunRecord) : RunRecord :=
  let sim := simulate_turn trans st.last_llm_state steps_per_turn ent
  let action_seq := String.intercalate ", " sim.1
  let expected_state := sim.2.1
  let turn_correct : Bool :=
    match llm_state with
    | none => false
    | some v => v == expected_state
  { st with
    current_turn := st.current_turn + 1,
    conversation_history := st.conversation_history ++
      [("user", action_seq), ("assistant", raw_response)],
    is_task_correct :=
      if st.is_task_correct && !turn_correct then false else st.is_task_correct,
    ground_truth_state := expected_state,
    last_llm_state := match llm_state with | some v => v | none => st.last_llm_state }

/-- The optional priming step of `process_run` (models without system-prompt
support), restricted to its effect on the Run Record. -/
def priming_step (fsm_initial : String) (raw_response : String)
    (llm_initial_state : Option String) (st : RunRecord) : RunRecord :=
  { st with
    conversation_history := st.conversation_history ++ [("assistant", raw_response)],
    is_task_correct :=
      if llm_initial_state ≠ some fsm_initial then false else st.is_task_correct,
    last_llm_state :=
      match llm_initial_state with | some v => v | none => fsm_initial }

/-- `state["is_complete"] = True` after the turn loop of `process_run`. -/
def mark_complete (st : RunRecord) : RunRecord := { st with is_complete := true }

theorem maxInstanceId_le_iff (defs : List (Nat × FSM)) (m : Nat) :
    maxInstanceId defs ≤ m ↔ ∀ d ∈ defs, d.1 ≤ m := by
  induction defs with
  | nil => simp [maxInstanceId]
  | cons d rest ih =>
    have hcons : maxInstanceId (d :: rest) = max d.1 (maxInstanceId rest) := rfl
    rw [hcons, max_le_iff, List.forall_mem_cons, ih]

/-- C2.  Running `handle_sample_size_change` twice with identical arguments
is the same as running it once — the first (reducing) run leaves no instance
id above the target, so the second run takes the `new >= max_existing_id`
early return and changes nothing, Aggregate Rows included. -/
theorem C2_reconcile_idempotent (db : DB) (new_total : Nat) (model : String)
    (total_turns steps_per_turn : Nat) :
    handle_sample_size_change
      (handle_sample_size_change db new_total model total_turns steps_per_turn)
      new_total model total_turns steps_per_turn =
    handle_sample_size_change db new_total model total_turns steps_per_turn := by
  by_cases h : maxInstanceId db.fsm_definitions ≤ new_total
  · have h1 : handle_sample_size_change db new_total model total_turns steps_per_turn = db := by
      rw [handle_sample_size_change, if_pos h]
    rw [h1]
    rw [handle_sample_size_change, if_pos h]
  · have h1 : (handle_sample_size_change db new_total model total_turns
        steps_per_turn).fsm_definitions =
        db.fsm_definitions.filter (fun d => decide (d.1 ≤ new_total)) := by
      rw [handle_sample_size_change, if_neg h]
    have h2 : maxInstanceId (handle_sample_size_change db new_total model total_turns
        steps_per_turn).fsm_definitions ≤ new_total := by
      rw [h1, maxInstanceId_le_iff]
      intro d hd
      exact of_decide_eq_true (List.mem_filter.mp hd).2
    rw [handle_sample_size_change, if_pos h2]

theorem rebuildAgg_mem {model : String} {total_turns steps_per_turn : Nat}
    {runs errs : List (Nat × Nat)} {row : ResultRow}
    (h : row ∈ rebuildAgg model total_turns steps_per_turn runs errs) :
    ∃ t0, t0 < total_turns ∧ 0 < (aggCounts errs (t0 + 1) runs).1 ∧
      row = ⟨model, (t0 + 1) * steps_per_turn, (aggCounts errs (t0 + 1) runs).2.1,
        (aggCounts errs (t0 + 1) runs).2.2, (aggCounts errs (t0 + 1) runs).1⟩ := by
  rcases List.mem_filterMap.mp h with ⟨t0, ht0, hres⟩
  refine ⟨t0, List.mem_range.mp ht0, ?_, ?_⟩
  · by_cases hc : 0 < (aggCounts errs (t0 + 1) runs).1
    · exact hc
    · rw [if_neg hc] at hres
      exact absurd hres (Option.noConfusion)
  · by_cases hc : 0 < (aggCounts errs (t0 + 1) runs).1
    · rw [if_pos hc] at hres
      exact (Option.some.inj hres).symm
    · rw [if_neg hc] at hres
      exact absurd hres (Option.noConfusion)

/-- C10.  A reduction purges FSM definitions, Run Records and Error Log
entries of *every* run identifier above the target (the deletes filter on
`instance_id` only), but touches Aggregate Rows of the reconciled identifier
alone: any other identifier keeps exactly its previous Aggregate Rows, even
though its raw rows above the target were just deleted. -/
theorem C10_reduction_frame (db : DB) (new_total : Nat) (model : String)
    (total_turns steps_per_turn : Nat)
    (hreduce : ¬ maxInstanceId db.fsm_definitions ≤ new_total) :
    (handle_sample_size_change db new_total model total_turns
        steps_per_turn).fsm_definitions =
      db.fsm_definitions.filter (fun d => decide (d.1 ≤ new_total)) ∧
    (handle_sample_size_change db new_total model total_turns
        steps_per_turn).experiment_runs =
      db.experiment_runs.filter (fun r => decide (r.instance_id ≤ new_total)) ∧
    (handle_sample_size_change db new_total model total_turns
        steps_per_turn).error_log =
      db.error_log.filter (fun e => decide (e.instance_id ≤ new_total)) ∧
    (∀ other_model, other_model ≠ model →
      (handle_sample_size_change db new_total model total_turns
          steps_per_turn).results.filter (fun r => r.model_name == other_model) =
        db.results.filter (fun r => r.model_name == other_model)) := by
  refine ⟨?_, ?_, ?_, ?_⟩
  · rw [handle_sample_size_change, if_neg hreduce]
  · rw [handle_sample_size_change, if_neg hreduce]
  · rw [handle_sample_size_change, if_neg hreduce]
  · intro other hother
    have hres : (handle_sample_size_change db new_total model total_turns
        steps_per_turn).results =
        db.results.filter (fun r => !(r.model_name == model)) ++
          rebuildAgg model total_turns steps_per_turn
            (((db.experiment_runs.filter (fun r => decide (r.instance_id ≤ new_total))).filter
              (fun r => r.model_name == model && decide (r.instance_id ≤ new_total))).map
                (fun r => (r.instance_id, r.current_turn)))
            (((db.error_log.filter (fun e => decide (e.instance_id ≤ new_total))).filter
              (fun e => e.model_name == model && decide (e.instance_id ≤ new_total))).map
                (fun e => (e.instance_id, e.turn_number))) := by
      rw [handle_sample_size_change, if_neg hreduce]
    rw [hres, List.filter_append]
    have hnew : (rebuildAgg model total_turns steps_per_turn
        (((db.experiment_runs.filter (fun r => decide (r.instance_id ≤ new_total))).filter
          (fun r => r.model_name == model && decide (r.instance_id ≤ new_total))).map
            (fun r => (r.instance_id, r.current_turn)))
        (((db.error_log.filter (fun e => decide (e.instance_id ≤ new_total))).filter
          (fun e => e.model_name == model && decide (e.instance_id ≤ new_total))).map
            (fun e => (e.instance_id, e.turn_number)))).filter
        (fun r => r.model_name == other) = [] := by
      rw [List.filter_eq_nil_iff]
      intro row hrow
      obtain ⟨t0, _, _, hroweq⟩ := rebuildAgg_mem hrow
      rw [hroweq]
      simp only [beq_iff_eq]
      exact fun hcon => hother (hcon.symm)
    rw [hnew, List.append_nil, List.filter_filter]
    refine List.filter_congr ?_
    intro row _
    by_cases hc : row.model_name = other
    · have h1 : (row.model_name == other) = true := beq_iff_eq.mpr hc
      have h2 : (row.model_name == model) = false :=
        beq_eq_false_iff_ne.mpr (fun hcon => hother ((hc.symm.trans hcon)))
      rw [h1, h2]
      rfl
    · have h1 : (row.model_name == other) = false := beq_eq_false_iff_ne.mpr hc
      rw [h1, Bool.false_and]

/-- A small store for C10's witness: two instances, one run and one Aggregate
Row belonging to a different run identifier than the one being reconciled. -/
def c10db : DB :=
  { fsm_definitions := [(1, default), (2, default)],
    experiment_runs := [⟨2, "other", [], 1, "a", "a", true, false⟩],
    error_log := [],
    results := [⟨"other", 5, 1, 1, 1⟩] }

/-- C10 (witness): reducing to 1 instance for model `"m"` deletes the other
identifier's run (instance 2) but leaves its Aggregate Row untouched. -/
theorem C10_witness :
    (handle_sample_size_change c10db 1 "m" 6 5).experiment_runs =
      c10db.experiment_runs.filter (fun r => decide (r.instance_id ≤ 1)) ∧
    (handle_sample_size_change c10db 1 "m" 6 5).results.filter
        (fun r => r.model_name == "other") =
      c10db.results.filter (fun r => r.model_name == "other") :=
  ⟨(C10_reduction_frame c10db 1 "m" 6 5 (by decide)).2.1,
   (C10_reduction_frame c10db 1 "m" 6 5 (by decide)).2.2.2 "other" (by decide)⟩

/-- C7.  A second `get_or_create_run_state` with the same
`(instance_id, run_identifier)` key on the store the first call returned —
no intervening mutation — returns exactly the record the first call returned
and leaves the store unchanged (no re-seeding of the conversation, whatever
the second call's random stream); and a call with a *different* key never
touches this key's stored record. -/
theorem C7_get_or_create (db : DB) (iid : Nat) (model : String) (supports : Bool)
    (ent : List Nat) (r : RunRecord) (db1 : DB)
    (h : get_or_create_run_state db iid model supports ent = some (r, db1)) :
    (∀ ent2, get_or_create_run_state db1 iid model supports ent2 = some (r, db1)) ∧
    (∀ iid2 model2 supports2 ent2 r2 db2, ¬ (iid2 = iid ∧ model2 = model) →
      get_or_create_run_state db1 iid2 model2 supports2 ent2 = some (r2, db2) →
      lookupRun db2 iid model = lookupRun db1 iid model) := by
  have hsame : lookupRun db1 iid model = some r := by
    cases hlk : lookupRun db iid model with
    | some r0 =>
      simp only [get_or_create_run_state, hlk, Option.some.injEq, Prod.mk.injEq] at h
      obtain ⟨hr, hdb⟩ := h
      rw [← hdb, hlk, hr]
    | none =>
      simp only [get_or_create_run_state, hlk] at h
      cases hdef : lookupDefinition db iid with
      | none =>
        simp only [hdef] at h
        exact Option.noConfusion h
      | some defn =>
        simp only [hdef] at h
        cases hinit : defn.initial_state with
        | none =>
          simp only [hinit] at h
          exact Option.noConfusion h
        | some ginit =>
          simp only [hinit, Option.some.injEq, Prod.mk.injEq] at h
          obtain ⟨hr, hdb⟩ := h
          rw [← hdb]
          simp only [lookupRun, List.find?_append]
          rw [lookupRun] at hlk
          rw [hlk]
          rw [← hr]
          simp
  refine ⟨?_, ?_⟩
  · intro ent2
    simp only [get_or_create_run_state, hsame]
  · intro iid2 model2 supports2 ent2 r2 db2 hne h2
    cases hlk2 : lookupRun db1 iid2 model2 with
    | some r0 =>
      simp only [get_or_create_run_state, hlk2, Option.some.injEq, Prod.mk.injEq] at h2
      rw [← h2.2]
    | none =>
      simp only [get_or_create_run_state, hlk2] at h2
      cases hdef2 : lookupDefinition db1 iid2 with
      | none =>
        simp only [hdef2] at h2
        exact Option.noConfusion h2
      | some defn2 =>
        simp only [hdef2] at h2
        cases hinit2 : defn2.initial_state with
        | none =>
          simp only [hinit2] at h2
          exact Option.noConfusion h2
        | some ginit2 =>
          simp only [hinit2, Option.some.injEq, Prod.mk.injEq] at h2
          obtain ⟨_, hdb⟩ := h2
          rw [← hdb]
          simp only [lookupRun, List.find?_append]
          have hkey : ((iid2 == iid) && (model2 == model)) = false := by
            by_cases hi : iid2 = iid
            · have hm : model2 ≠ model := fun hm => hne ⟨hi, hm⟩
              rw [beq_eq_false_iff_ne.mpr hm, Bool.and_false]
            · rw [beq_eq_false_iff_ne.mpr hi, Bool.false_and]
          simp [hkey]

/-- A store that already holds the run record for C7's witness key. -/
def c7rec : RunRecord := ⟨1, "m", [("system", "p")], 0, "a", "a", true, false⟩

def c7db : DB :=
  { fsm_definitions := [], experiment_runs := [c7rec], error_log := [], results := [] }

/-- C7 (witness): the repeated call — under a different random stream —
returns the stored record verbatim and leaves the store unchanged. -/
theorem C7_witness :
    get_or_create_run_state c7db 1 "m" true [5] = some (c7rec, c7db) :=
  (C7_get_or_create c7db 1 "m" true [] c7rec c7db rfl).1 [5]

/-- C8.  Per-operation invariants of the Run Record under the four core
operations (per-turn update, priming, completion marking, turn-budget
extension): `current_turn` never decreases; `is_task_correct`, once false,
never becomes true again; `is_complete`, once true, stays true under every
operation except the explicit extension reset — which in turn changes nothing
but `is_complete`. -/
theorem C8_record_invariants :
    (∀ (trans : List (String × String × String)) (steps : Nat) (raw : String)
        (llm : Option String) (ent : List Nat) (st : RunRecord),
      st.current_turn ≤ (process_turn trans steps raw llm ent st).current_turn ∧
      ((process_turn trans steps raw llm ent st).is_task_correct = true →
        st.is_task_correct = true) ∧
      (st.is_complete = true → (process_turn trans steps raw llm ent st).is_complete = true)) ∧
    (∀ (init raw : String) (llm : Option String) (st : RunRecord),
      st.current_turn ≤ (priming_step init raw llm st).current_turn ∧
      ((priming_step init raw llm st).is_task_correct = true → st.is_task_correct = true) ∧
      (st.is_complete = true → (priming_step init raw llm st).is_complete = true)) ∧
    (∀ st : RunRecord,
      st.current_turn ≤ (mark_complete st).current_turn ∧
      ((mark_complete st).is_task_correct = true → st.is_task_correct = true) ∧
      (st.is_complete = true → (mark_complete st).is_complete = true)) ∧
    (∀ (model : String) (nt : Nat) (st : RunRecord),
      (extension_reset model nt st).current_turn = st.current_turn ∧
      (extension_reset model nt st).is_task_correct = st.is_task_correct ∧
      ((extension_reset model nt st).is_complete = true → st.is_complete = true)) := by
  refine ⟨?_, ?_, ?_, ?_⟩
  · intro trans steps raw llm ent st
    refine ⟨Nat.le_succ _, ?_, fun h => h⟩
    intro h
    by_cases hc : st.is_task_correct = true
    · exact hc
    · have hfalse : st.is_task_correct = false := by
        cases hb : st.is_task_correct
        · rfl
        · exact absurd hb hc
      simp only [process_turn, hfalse] at h
      simp at h
  · intro init raw llm st
    refine ⟨Nat.le_refl _, ?_, fun h => h⟩
    intro h
    simp only [priming_step] at h
    by_cases hc : llm ≠ some init
    · rw [if_pos hc] at h
      exact absurd h (by simp)
    · rw [if_neg hc] at h
      exact h
  · intro st
    exact ⟨Nat.le_refl _, fun h => h, fun _ => rfl⟩
  · intro model nt st
    refine ⟨?_, ?_, ?_⟩
    · by_cases hc : (st.model_name == model && st.is_complete &&
          decide (st.current_turn < nt)) = true
      · simp only [extension_reset, if_pos hc]
      · simp only [extension_reset, if_neg hc]
    · by_cases hc : (st.model_name == model && st.is_complete &&
          decide (st.current_turn < nt)) = true
      · simp only [extension_reset, if_pos hc]
      · simp only [extension_reset, if_neg hc]
    · intro h
      by_cases hc : (st.model_name == model && st.is_complete &&
          decide (st.current_turn < nt)) = true
      · simp only [extension_reset, if_pos hc] at h
        exact absurd h (by simp)
      · simp only [extension_reset, if_neg hc] at h
        exact h

/-- A completed, so-far-correct record for C8's witness. -/
def c8rec : RunRecord := ⟨1, "m", [], 2, "a", "a", true, true⟩

/-- C8 (witness): the invariants evaluated on a concrete record under each
operation. -/
theorem C8_witness :
    c8rec.current_turn ≤ (process_turn [] 5 "resp" none [] c8rec).current_turn ∧
    (process_turn [] 5 "resp" none [] c8rec).is_complete = true ∧
    c8rec.current_turn ≤ (priming_step "a" "resp" none c8rec).current_turn ∧
    (mark_complete c8rec).is_complete = true ∧
    (extension_reset "m" 5 c8rec).is_task_correct = c8rec.is_task_correct :=
  ⟨(C8_record_invariants.1 [] 5 "resp" none [] c8rec).1,
   (C8_record_invariants.1 [] 5 "resp" none [] c8rec).2.2 (by decide),
   (C8_record_invariants.2.1 "a" "resp" none c8rec).1,
   (C8_record_invariants.2.2.1 c8rec).2.2 (by decide),
   (C8_record_invariants.2.2.2 "m" 5 c8rec).2.1⟩

/-- Spec-side: the surviving Run Records of one run identifier. -/
def survivingRuns (db : DB) (model : String) : List RunRecord :=
  db.experiment_runs.filter (fun r => r.model_name == model)

/-- Spec-side: the turn numbers of the surviving Error Log entries of one
`(run identifier, instance)`. -/
def survivingErrTurns (db : DB) (model : String) (i : Nat) : List Nat :=
  (db.error_log.filter (fun e => e.model_name == model && e.instance_id == i)).map
    (fun e => e.turn_number)

/-- Spec-side (from the claim's words): the Aggregate Row predicted for a
given turn — each surviving Run Record of the identifier counts toward
`total_runs` iff `current_turn ≥ turn`, toward `turn_successes` iff no
surviving error for that instance has turn number exactly `turn`, and toward
`task_successes` iff none has turn number `≤ turn`; no row exists when no run
reached the turn. -/
def expectedRow (db : DB) (model : String) (turn steps : Nat) : Option ResultRow :=
  if 0 < ((survivingRuns db model).filter
      (fun r => decide (turn ≤ r.current_turn))).length then
    some ⟨model, turn * steps,
      ((survivingRuns db model).filter (fun r => decide (turn ≤ r.current_turn) &&
        !((survivingErrTurns db model r.instance_id).contains turn))).length,
      ((survivingRuns db model).filter (fun r => decide (turn ≤ r.current_turn) &&
        !((survivingErrTurns db model r.instance_id).any
          (fun e => decide (e ≤ turn))))).length,
      ((survivingRuns db model).filter
        (fun r => decide (turn ≤ r.current_turn))).length⟩
  else none

theorem aggCounts_general (errs : List (Nat × Nat)) (turn : Nat) :
    ∀ (runs : List (Nat × Nat)) (acc : Nat × Nat × Nat),
      runs.foldl
        (fun acc p =>
          if p.2 < turn then acc
          else
            (acc.1 + 1,
             acc.2.1 + (if (errTurnsOf errs p.1).contains turn then 0 else 1),
             acc.2.2 + (if (errTurnsOf errs p.1).any (fun e => decide (e ≤ turn))
               then 0 else 1)))
        acc =
      (acc.1 + (runs.filter (fun p => !decide (p.2 < turn))).length,
       acc.2.1 + (runs.filter (fun p => !decide (p.2 < turn) &&
         !((errTurnsOf errs p.1).contains turn))).length,
       acc.2.2 + (runs.filter (fun p => !decide (p.2 < turn) &&
         !((errTurnsOf errs p.1).any (fun e => decide (e ≤ turn))))).length) := by
  intro runs
  induction runs with
  | nil => intro acc; simp
  | cons p rest ih =>
    intro acc
    rw [List.foldl_cons]
    by_cases hp : p.2 < turn
    · rw [if_pos hp, ih acc]
      have hd : (!decide (p.2 < turn)) = false := by simp [hp]
      simp only [List.filter_cons, hd, Bool.false_and, if_neg]
      simp
    · rw [if_neg hp, ih _]
      have hsplit2 : (∃ x ∈ errTurnsOf errs p.1, x ≤ turn) ∨
          (∀ e ∈ errTurnsOf errs p.1, turn < e) := by
        by_cases hc : ∃ x ∈ errTurnsOf errs p.1, x ≤ turn
        · exact Or.inl hc
        · refine Or.inr ?_
          intro e he
          by_contra hcon
          exact hc ⟨e, he, by omega⟩
      by_cases hc1 : turn ∈ errTurnsOf errs p.1
      · rcases hsplit2 with hc2 | hc2
        · have hc2f : ¬ ∀ e ∈ errTurnsOf errs p.1, turn < e := by
            intro hall
            rcases hc2 with ⟨x, hx, hle⟩
            exact absurd (hall x hx) (by omega)
          simp [List.filter_cons, hp, hc1, hc2, hc2f, Prod.ext_iff]
          omega
        · exact absurd (hc2 turn hc1) (by omega)
      · rcases hsplit2 with hc2 | hc2
        · have hc2f : ¬ ∀ e ∈ errTurnsOf errs p.1, turn < e := by
            intro hall
            rcases hc2 with ⟨x, hx, hle⟩
            exact absurd (hall x hx) (by omega)
          simp [List.filter_cons, hp, hc1, hc2, hc2f, Prod.ext_iff]
          omega
        · have hc2f : ¬ ∃ x ∈ errTurnsOf errs p.1, x ≤ turn := by
            rintro ⟨x, hx, hle⟩
            exact absurd (hc2 x hx) (by omega)
          simp [List.filter_cons, hp, hc1, hc2f, Prod.ext_iff, if_pos hc2]
          omega

/-- The rebuild's per-turn counters are exactly the three filtered counts
over the fetched run rows. -/
theorem aggCounts_eq_filters (errs : List (Nat × Nat)) (turn : Nat)
    (runs : List (Nat × Nat)) :
    aggCounts errs turn runs =
      ((runs.filter (fun p => !decide (p.2 < turn))).length,
       (runs.filter (fun p => !decide (p.2 < turn) &&
         !((errTurnsOf errs p.1).contains turn))).length,
       (runs.filter (fun p => !decide (p.2 < turn) &&
         !((errTurnsOf errs p.1).any (fun e => decide (e ≤ turn))))).length) := by
  rw [aggCounts, aggCounts_general errs turn runs (0, 0, 0)]
  simp

/-- Scanning the rebuilt Aggregate Rows for the key
`(model, turn × steps_per_turn)` finds exactly the row predicted by the
per-turn counters — or nothing when no run reached the turn. -/
theorem rebuildAgg_find (model : String) (steps : Nat) (runs errs : List (Nat × Nat))
    (hsteps : 0 < steps) :
    ∀ (total_turns turn : Nat), 1 ≤ turn → turn ≤ total_turns →
      (rebuildAgg model total_turns steps runs errs).find?
          (fun row => row.model_name == model && row.task_length == turn * steps) =
        (if 0 < (aggCounts errs turn runs).1 then
          some ⟨model, turn * steps, (aggCounts errs turn runs).2.1,
            (aggCounts errs turn runs).2.2, (aggCounts errs turn runs).1⟩
        else none) := by
  intro total_turns
  induction total_turns with
  | zero => intro turn hl hu; omega
  | succ T ih =>
    intro turn hl hu
    have hsplit : rebuildAgg model (T + 1) steps runs errs =
        rebuildAgg model T steps runs errs ++
          (if 0 < (aggCounts errs (T + 1) runs).1 then
            [⟨model, (T + 1) * steps, (aggCounts errs (T + 1) runs).2.1,
              (aggCounts errs (T + 1) runs).2.2, (aggCounts errs (T + 1) runs).1⟩]
          else []) := by
      rw [rebuildAgg, rebuildAgg, List.range_succ, List.filterMap_append]
      congr 1
      simp only [List.filterMap_cons, List.filterMap_nil]
      by_cases hc : 0 < (aggCounts errs (T + 1) runs).1
      · rw [if_pos hc, if_pos hc]
      · rw [if_neg hc, if_neg hc]
    rw [hsplit, List.find?_append]
    by_cases hcase : turn ≤ T
    · rw [ih turn hl hcase]
      by_cases hc : 0 < (aggCounts errs turn runs).1
      · rw [if_pos hc]
        rfl
      · rw [if_neg hc, Option.none_or]
        by_cases hc2 : 0 < (aggCounts errs (T + 1) runs).1
        · rw [if_pos hc2]
          have hkey : ((turn * steps : Nat) = (T + 1) * steps) → False := by
            intro hk
            have := Nat.eq_of_mul_eq_mul_right hsteps hk
            omega
          rw [List.find?_eq_none]
          intro row hrow
          rcases List.mem_singleton.mp hrow with rfl
          simp only [Bool.and_eq_true, beq_iff_eq]
          rintro ⟨-, hk⟩
          exact hkey hk.symm
        · rw [if_neg hc2]
          rfl
    · have hturn : turn = T + 1 := by omega
      subst hturn
      have hnone : (rebuildAgg model T steps runs errs).find?
          (fun row => row.model_name == model && row.task_length == (T + 1) * steps) =
          none := by
        rw [List.find?_eq_none]
        intro row hrow
        obtain ⟨t0, ht0, _, hroweq⟩ := rebuildAgg_mem hrow
        rw [hroweq]
        simp only [Bool.and_eq_true, beq_iff_eq]
        rintro ⟨-, hk⟩
        have := Nat.eq_of_mul_eq_mul_right hsteps hk
        omega
      rw [hnone, Option.none_or]
      by_cases hc : 0 < (aggCounts errs (T + 1) runs).1
      · rw [if_pos hc, if_pos hc]
        rw [List.find?_cons_of_pos]
        simp
      · rw [if_neg hc, if_neg hc]
        rfl

theorem errTurnsOf_mapped (errs2 : List ErrorRow) (model : String) (new_total : Nat)
    (hall : ∀ e ∈ errs2, decide (e.instance_id ≤ new_total) = true) (i : Nat) :
    errTurnsOf ((errs2.filter (fun e => e.model_name == model &&
        decide (e.instance_id ≤ new_total))).map
          (fun e => (e.instance_id, e.turn_number))) i =
      (errs2.filter (fun e => e.model_name == model && e.instance_id == i)).map
        (fun e => e.turn_number) := by
  rw [errTurnsOf, List.filter_map, List.map_map, List.filter_filter]
  have hpred : ∀ e ∈ errs2,
      (((fun q : Nat × Nat => q.1 == i) ∘ fun e : ErrorRow =>
          (e.instance_id, e.turn_number)) e &&
        (e.model_name == model && decide (e.instance_id ≤ new_total))) =
      (e.model_name == model && e.instance_id == i) := by
    intro e he
    show ((e.instance_id == i) &&
      (e.model_name == model && decide (e.instance_id ≤ new_total))) =
      (e.model_name == model && e.instance_id == i)
    rw [hall e he, Bool.and_true, Bool.and_comm]
  rw [List.filter_congr hpred]
  rfl

theorem mapped_run_count (runs2 : List RunRecord) (model : String) (new_total : Nat)
    (hall : ∀ r ∈ runs2, decide (r.instance_id ≤ new_total) = true)
    (p : Nat × Nat → Bool) :
    (((runs2.filter (fun r => r.model_name == model &&
        decide (r.instance_id ≤ new_total))).map
          (fun r => (r.instance_id, r.current_turn))).filter p).length =
      ((runs2.filter (fun r => r.model_name == model)).filter
        (fun r => p (r.instance_id, r.current_turn))).length := by
  rw [List.filter_map, List.length_map, List.filter_filter, List.filter_filter]
  refine congrArg List.length (List.filter_congr ?_)
  intro r hr
  show (p (r.instance_id, r.current_turn) &&
      (r.model_name == model && decide (r.instance_id ≤ new_total))) =
    (p (r.instance_id, r.current_turn) && r.model_name == model)
  rw [hall r hr, Bool.and_true]

theorem not_decide_lt (turn x : Nat) : (!decide (x < turn)) = decide (turn ≤ x) := by
  by_cases h : x < turn
  · rw [decide_eq_true h, Bool.not_true, eq_comm]
    exact decide_eq_false (by omega)
  · rw [decide_eq_false h, Bool.not_false, eq_comm]
    exact decide_eq_true (by omega)

/-- C1.  After a rebuild triggered by a sample-size reduction, the Aggregate
Row stored under `(run_identifier, turn × steps_per_turn)` — for every `turn`
in `[1, total_turns]` — counts each surviving Run Record of the identifier
toward `total_runs` iff `current_turn ≥ turn`, toward `turn_successes` iff no
surviving Error Log entry of `(identifier, instance)` has turn number exactly
`turn`, and toward `task_successes` iff none has turn number `≤ turn` (a
prefix property); the row is absent exactly when no surviving run reached
the turn.  (`0 < steps_per_turn` makes `turn × steps_per_turn` a well-defined
key per turn, as in the driver's configuration.) -/
theorem C1_rebuild_counts (db : DB) (new_total : Nat) (model : String)
    (total_turns steps turn : Nat)
    (hreduce : ¬ maxInstanceId db.fsm_definitions ≤ new_total)
    (hsteps : 0 < steps) (h1 : 1 ≤ turn) (h2 : turn ≤ total_turns) :
    (handle_sample_size_change db new_total model total_turns steps).results.find?
        (fun row => row.model_name == model && row.task_length == turn * steps) =
      expectedRow (handle_sample_size_change db new_total model total_turns steps)
        model turn steps := by
  set runs2 := db.experiment_runs.filter
    (fun r => decide (r.instance_id ≤ new_total)) with hruns2def
  set errs2 := db.error_log.filter
    (fun e => decide (e.instance_id ≤ new_total)) with herrs2def
  set runsP := (runs2.filter (fun r => r.model_name == model &&
    decide (r.instance_id ≤ new_total))).map
      (fun r => (r.instance_id, r.current_turn)) with hrunsPdef
  set errsP := (errs2.filter (fun e => e.model_name == model &&
    decide (e.instance_id ≤ new_total))).map
      (fun e => (e.instance_id, e.turn_number)) with herrsPdef
  have hres : (handle_sample_size_change db new_total model total_turns steps).results =
      db.results.filter (fun r => !(r.model_name == model)) ++
        rebuildAgg model total_turns steps runsP errsP := by
    rw [handle_sample_size_change, if_neg hreduce]
  have hruns : (handle_sample_size_change db new_total model total_turns
      steps).experiment_runs = runs2 := by
    rw [handle_sample_size_change, if_neg hreduce]
  have herrl : (handle_sample_size_change db new_total model total_turns
      steps).error_log = errs2 := by
    rw [handle_sample_size_change, if_neg hreduce]
  have hall_runs : ∀ r ∈ runs2, decide (r.instance_id ≤ new_total) = true :=
    fun r hr => (List.mem_filter.mp hr).2
  have hall_errs : ∀ e ∈ errs2, decide (e.instance_id ≤ new_total) = true :=
    fun e he => (List.mem_filter.mp he).2
  have herrmap := errTurnsOf_mapped errs2 model new_total hall_errs
  have hsurv : survivingRuns (handle_sample_size_change db new_total model
      total_turns steps) model = runs2.filter (fun r => r.model_name == model) := by
    rw [survivingRuns, hruns]
  have herrTs : ∀ i, survivingErrTurns (handle_sample_size_change db new_total model
      total_turns steps) model i =
      (errs2.filter (fun e => e.model_name == model && e.instance_id == i)).map
        (fun e => e.turn_number) := by
    intro i
    rw [survivingErrTurns, herrl]
  have hkeep : (db.results.filter (fun r => !(r.model_name == model))).find?
      (fun row => row.model_name == model && row.task_length == turn * steps) = none := by
    rw [List.find?_eq_none]
    intro row hrow
    have hne := (List.mem_filter.mp hrow).2
    simp only [Bool.and_eq_true, beq_iff_eq]
    rintro ⟨hm, -⟩
    rw [hm] at hne
    simp at hne
  have hA : (aggCounts errsP turn runsP).1 =
      (runsP.filter (fun p => !decide (p.2 < turn))).length := by
    rw [aggCounts_eq_filters]
  have hB : (aggCounts errsP turn runsP).2.1 =
      (runsP.filter (fun p => !decide (p.2 < turn) &&
        !((errTurnsOf errsP p.1).contains turn))).length := by
    rw [aggCounts_eq_filters]
  have hC : (aggCounts errsP turn runsP).2.2 =
      (runsP.filter (fun p => !decide (p.2 < turn) &&
        !((errTurnsOf errsP p.1).any (fun e => decide (e ≤ turn))))).length := by
    rw [aggCounts_eq_filters]
  have hT : (runsP.filter (fun p => !decide (p.2 < turn))).length =
      ((runs2.filter (fun r => r.model_name == model)).filter
        (fun r => decide (turn ≤ r.current_turn))).length := by
    rw [hrunsPdef,
      mapped_run_count runs2 model new_total hall_runs (fun q => !decide (q.2 < turn))]
    refine congrArg List.length (List.filter_congr ?_)
    intro r _
    show (!decide (r.current_turn < turn)) = decide (turn ≤ r.current_turn)
    exact not_decide_lt turn r.current_turn
  have hU : (runsP.filter (fun p => !decide (p.2 < turn) &&
      !((errTurnsOf errsP p.1).contains turn))).length =
      ((runs2.filter (fun r => r.model_name == model)).filter
        (fun r => decide (turn ≤ r.current_turn) &&
          !(((errs2.filter (fun e => e.model_name == model &&
              e.instance_id == r.instance_id)).map
                (fun e => e.turn_number)).contains turn))).length := by
    rw [hrunsPdef, mapped_run_count runs2 model new_total hall_runs
      (fun q => !decide (q.2 < turn) && !((errTurnsOf errsP q.1).contains turn))]
    refine congrArg List.length (List.filter_congr ?_)
    intro r _
    show (!decide (r.current_turn < turn) &&
        !((errTurnsOf errsP r.instance_id).contains turn)) = _
    rw [not_decide_lt, herrsPdef, herrmap r.instance_id]
  have hV : (runsP.filter (fun p => !decide (p.2 < turn) &&
      !((errTurnsOf errsP p.1).any (fun e => decide (e ≤ turn))))).length =
      ((runs2.filter (fun r => r.model_name == model)).filter
        (fun r => decide (turn ≤ r.current_turn) &&
          !(((errs2.filter (fun e => e.model_name == model &&
              e.instance_id == r.instance_id)).map
                (fun e => e.turn_number)).any (fun e => decide (e ≤ turn))))).length := by
    rw [hrunsPdef, mapped_run_count runs2 model new_total hall_runs
      (fun q => !decide (q.2 < turn) &&
        !((errTurnsOf errsP q.1).any (fun e => decide (e ≤ turn))))]
    refine congrArg List.length (List.filter_congr ?_)
    intro r _
    show (!decide (r.current_turn < turn) &&
        !((errTurnsOf errsP r.instance_id).any (fun e => decide (e ≤ turn)))) = _
    rw [not_decide_lt, herrsPdef, herrmap r.instance_id]
  rw [hres, List.find?_append, hkeep, Option.none_or,
    rebuildAgg_find model steps runsP errsP hsteps total_turns turn h1 h2,
    hA, hB, hC, hT, hU, hV, expectedRow, hsurv]
  simp only [herrTs]

/-- A store for C1's witness: three definitions (so a target of 2 is a
reduction), two runs of identifier `"m"` (instance 1 at turn 2, instance 2 at
turn 1), one logged error at `(instance 1, turn 1)`, and a stale Aggregate
Row to be wiped. -/
def c1db : DB :=
  { fsm_definitions := [(1, default), (2, default), (3, default)],
    experiment_runs := [⟨1, "m", [], 2, "a", "a", false, true⟩,
                        ⟨2, "m", [], 1, "a", "a", true, false⟩],
    error_log := [⟨"m", 1, 1, 5, "exp", "raw", "state_mismatch"⟩],
    results := [⟨"m", 5, 99, 99, 99⟩] }

/-- C1 (witness): after reducing to 2 instances with `total_turns = 2`,
`steps_per_turn = 5`, the rebuilt row at `task_length = 1 × 5` counts both
runs, one turn success and one task success (instance 1 fails turn 1). -/
theorem C1_witness :
    (handle_sample_size_change c1db 2 "m" 2 5).results.find?
        (fun row => row.model_name == "m" && row.task_length == 1 * 5) =
      some ⟨"m", 5, 1, 1, 2⟩ :=
  (C1_rebuild_counts c1db 2 "m" 2 5 1 (by decide) (by decide) (by decide)
    (by decide)).trans (by decide)
